import Mathlib

/-!
A shallow embedding of the task-scheduler core (hierarchy engine, blocking
engine, recurrence engine, task orchestrator) of the Sendrel/task-scheduler
repository, together with theorems settling the frozen claims about it.

Conventions of the embedding:
* Instants are modelled by a civil-calendar record `DateM` (month index since
  year 0, 1-based day of month, minute of day).  JavaScript `Date` values are
  always kept normalized internally and compared by their millisecond value;
  here every comparison and equality test between instants goes through
  `DateM.toAbs`, the number of minutes since the epoch, which agrees with the
  millisecond ordering.  `setDate`/`setMonth`/`setFullYear` arithmetic with
  native rollover is modelled by `normalizeD`.
* Database access (TypeORM repository calls) becomes explicit passing of a
  `Store` (a list of `Task` rows).  `findOne {id, userId}` is `findTask`,
  `save` of an existing row is `replaceTask`, inserts append a row with a
  fresh id.  Relation loads (`parentTask`, `children`, `blocks`, `blockedBy`)
  are foreign-key joins and are therefore not filtered by user id; only the
  root `findOne`/`find` conditions are.
* `async` functions throwing exceptions become functions into `Except Err _`.
* The unbounded recursions of the source (`isDescendant`,
  `doesTaskEventuallyBlock`, `checkAndCompleteParentTasks`, the generation
  loop) are given an explicit fuel parameter; a `none` result means the
  recursion has not terminated within `fuel` nested calls, so
  `∀ fuel, f fuel = none` expresses divergence of the source recursion.
* Calls to the notification collaborator are recorded as `Event`s.
-/

set_option maxRecDepth 8000

namespace TaskSched

/-! ## Calendar model (JavaScript `Date` arithmetic) -/

/-- Gregorian leap-year rule, as implemented by JavaScript `Date`. -/
def isLeap (y : Nat) : Bool :=
  y % 4 == 0 && (y % 100 != 0 || y % 400 == 0)

/-- Length of the month with linear index `mi` (year `mi / 12`, month `mi % 12`,
January = 0 as in JavaScript). -/
def daysInMonth (mi : Nat) : Nat :=
  match mi % 12 with
  | 0 => 31
  | 1 => if isLeap (mi / 12) then 29 else 28
  | 2 => 31
  | 3 => 30
  | 4 => 31
  | 5 => 30
  | 6 => 31
  | 7 => 31
  | 8 => 30
  | 9 => 31
  | 10 => 30
  | _ => 31

/-- Days from the epoch (year 0, January 1) to the first day of month `mi`. -/
def monthStartAbs : Nat → Nat
  | 0 => 0
  | mi + 1 => monthStartAbs mi + daysInMonth mi

/-- An instant: linear month index, 1-based day of that month (possibly
denormalized, i.e. exceeding the month length, exactly as an intermediate
`setMonth` result before `Date` normalization), and minute of day. -/
structure DateM where
  monthIdx : Nat
  day : Nat
  minute : Nat
deriving Repr, DecidableEq

/-- Minutes since the epoch; the counterpart of `Date.getTime()`.  All
comparisons between instants in the embedded code go through this. -/
def DateM.toAbs (d : DateM) : Nat :=
  (monthStartAbs d.monthIdx + (d.day - 1)) * 1440 + d.minute

theorem daysInMonth_pos (mi : Nat) : 0 < daysInMonth mi := by
  unfold daysInMonth
  split <;> first | omega | (split <;> omega)

/-- Structural worker for `normalizeDay`.  The day count strictly decreases
on every carry step (a month has at least 28 days), so a budget equal to the
initial day count is always sufficient; the budget is only there to make the
recursion structural. -/
def normalizeDayAux : Nat → Nat → Nat → Nat × Nat
  | 0, mi, day => (mi, day)
  | budget + 1, mi, day =>
    if daysInMonth mi < day then
      normalizeDayAux budget (mi + 1) (day - daysInMonth mi)
    else
      (mi, day)

/-- Carry an overflowing day count into the following months, the way a
JavaScript `Date` normalizes after `setDate`/`setMonth`. -/
def normalizeDay (mi day : Nat) : Nat × Nat :=
  normalizeDayAux day mi day

/-- Normalize an instant (fix a day-of-month overflow). -/
def normalizeD (d : DateM) : DateM :=
  let p := normalizeDay d.monthIdx d.day
  { monthIdx := p.1, day := p.2, minute := d.minute }

/-! ## Core data model -/

inductive RecurrencePattern where
  | daily
  | weekly
  | monthly
  | yearly
deriving Repr, DecidableEq

/-- A task row.  Field set follows the data model of the spec (§3) and the
services' usage of the entity: identity and owner, core fields, recurrence
fields, the recurrence-lineage back-reference, the hierarchy back-reference,
and the owning side of the blocking relation (`blocks`, the ids this task
gates; `blockedBy` is the inverse join and is derived). -/
structure Task where
  id : Nat
  userId : Nat
  title : String := ""
  description : Option String := none
  scheduledTime : DateM
  completed : Bool := false
  recurrencePattern : Option RecurrencePattern := none
  recurrenceInterval : Option Nat := none
  recurrenceEndDate : Option DateM := none
  parentRecurrencyId : Option Nat := none
  parentTaskId : Option Nat := none
  blocks : List Nat := []
deriving Repr, DecidableEq

/-- The task table. -/
abbrev Store := List Task

/-- Error taxonomy of the services (`NotFoundException` and the various
`BadRequestException`s, distinguished by their message). -/
inductive Err where
  | notFound
  | invalidRelationship
  | circularDependency
  | duplicateRelationship
  | selfReference
  | blockedByChildren
  | blockedByDependency
  | internalError
deriving Repr, DecidableEq

/-- Invocations of the notification collaborator and of the post-completion
hooks, recorded in order. -/
inductive Event where
  | taskCreated (id : Nat)
  | taskCompleted (id : Nat)
  | reminders (id : Nat)
  | recurrenceRegen (templateId : Nat)
deriving Repr, DecidableEq

/-- `taskRepository.findOne({ where: { id, userId } })`. -/
def findTask (st : Store) (id userId : Nat) : Option Task :=
  st.find? (fun t => t.id == id && t.userId == userId)

/-- `taskRepository.findOne({ where: { id } })` (no owner filter; used by
foreign-key relation loads and by `onTaskInstanceCompleted`). -/
def findTaskAnyUser (st : Store) (id : Nat) : Option Task :=
  st.find? (fun t => t.id == id)

/-- `taskRepository.save(task)` for an already-persisted row: update by
primary key. -/
def replaceTask (st : Store) (t : Task) : Store :=
  st.map (fun x => if x.id == t.id then t else x)

/-- The next auto-increment primary key. -/
def nextId (st : Store) : Nat :=
  (st.map Task.id).foldr max 0 + 1

/-- The rows loaded by the `children` relation of task `id` (foreign-key
join on `parentTaskId`, not filtered by user). -/
def childrenOf (st : Store) (id : Nat) : List Task :=
  st.filter (fun t => t.parentTaskId == some id)

/-- The rows loaded by the `blockedBy` relation of task `id`: every row whose
`blocks` set contains `id`. -/
def blockedByOf (st : Store) (id : Nat) : List Task :=
  st.filter (fun t => t.blocks.contains id)

/-! ## Hierarchy engine (`TaskHierarchyService`) -/

/-- `validateChildDueDate(childScheduledTime, parentTaskId, userId)`:
`NotFoundException` if the parent is absent or not owned, `BadRequestException`
if the child's due date is strictly after the parent's. -/
def validateChildDueDate (st : Store) (childScheduledTime : DateM)
    (parentTaskId userId : Nat) : Except Err Unit :=
  match findTask st parentTaskId userId with
  | none => .error .notFound
  | some parentTask =>
    if parentTask.scheduledTime.toAbs < childScheduledTime.toAbs then
      .error .invalidRelationship
    else
      .ok ()

/-- `isDescendant(potentialDescendantId, ancestorId, userId)`: walk the parent
chain from `potentialDescendantId` upward looking for `ancestorId`.  The root
lookup is owner-filtered; the `parentTask` relation is a foreign-key join, so
only the existence of the parent row (any owner) is consulted before the
owner-filtered recursive call.  The source recursion is unbounded; `none`
means no answer within `fuel` nested calls. -/
def isDescendant (st : Store) (userId : Nat) :
    Nat → Nat → Nat → Option Bool
  | 0, _, _ => none
  | fuel + 1, potentialDescendantId, ancestorId =>
    match findTask st potentialDescendantId userId with
    | none => some false
    | some task =>
      match task.parentTaskId with
      | none => some false
      | some pid =>
        if (findTaskAnyUser st pid).isNone then some false
        else if pid == ancestorId then some true
        else isDescendant st userId fuel pid ancestorId

/-- `validateNoCircularDependency(taskId, parentTaskId, userId)`: fails when
the proposed parent is a descendant of the task. -/
def validateNoCircularDependency (st : Store) (fuel taskId parentTaskId userId : Nat) :
    Option (Except Err Unit) :=
  (isDescendant st userId fuel parentTaskId taskId).map (fun isCircular =>
    if isCircular then .error .invalidRelationship else .ok ())

/-- `validateParentCompletion(taskId, userId)`: fails with the
blocked-by-children error when a direct child owned by the user is
incomplete. -/
def validateParentCompletion (st : Store) (taskId userId : Nat) : Except Err Unit :=
  let incompleteChildren := st.filter (fun t =>
    t.parentTaskId == some taskId && t.userId == userId && !t.completed)
  if incompleteChildren.isEmpty then .ok () else .error .blockedByChildren

/-- `checkAndCompleteParentTasks(taskId, userId)`: if the task's parent exists
and is incomplete and all of the parent's children (owned by the user) are now
complete, persist `completed = true` on the parent and recurse upward.
The `parentTask` relation is a foreign-key join; the sibling query and the
update are owner-filtered, as in the source. -/
def checkAndCompleteParentTasks (st : Store) (userId : Nat) :
    Nat → Nat → Option Store
  | 0, _ => none
  | fuel + 1, taskId =>
    match findTask st taskId userId with
    | none => some st
    | some task =>
      match task.parentTaskId with
      | none => some st
      | some pid =>
        match findTaskAnyUser st pid with
        | none => some st
        | some parentTask =>
          if parentTask.completed then some st
          else
            let siblings := st.filter (fun t =>
              t.parentTaskId == some pid && t.userId == userId)
            if siblings.all (fun s => s.completed) then
              let st' := st.map (fun t =>
                if t.id == pid && t.userId == userId then
                  { t with completed := true }
                else t)
              checkAndCompleteParentTasks st' userId fuel pid
            else some st

/-- `moveTask(taskId, newParentTaskId, userId)`: look the task up, run the
cycle check and the due-date check when a (truthy) new parent is given, then
persist the new `parentTaskId`.  No recurrence-exclusivity validation is
performed here by the source. -/
def moveTask (st : Store) (fuel taskId : Nat) (newParentTaskId : Option Nat)
    (userId : Nat) : Option (Except Err Store) :=
  match findTask st taskId userId with
  | none => some (.error .notFound)
  | some task =>
    match newParentTaskId with
    | some np =>
      if np == 0 then
        -- `if (newParentTaskId)` is falsy for 0: checks are skipped
        some (.ok (replaceTask st { task with parentTaskId := some 0 }))
      else
        match validateNoCircularDependency st fuel taskId np userId with
        | none => none
        | some (.error e) => some (.error e)
        | some (.ok ()) =>
          match validateChildDueDate st task.scheduledTime np userId with
          | .error e => some (.error e)
          | .ok () =>
            some (.ok (replaceTask st { task with parentTaskId := some np }))
    | none =>
      some (.ok (replaceTask st { task with parentTaskId := none }))

/-! ## Blocking engine (`TaskBlockingService`) -/

/-- The `for (const blockedTask of taskA.blocks)` loop of
`doesTaskEventuallyBlock`: try each outgoing edge in order with the search
continuation `f`, short-circuiting on a hit and propagating an exhausted
budget. -/
def blockSearchChildren (f : Nat → List Nat → Option Bool) :
    List Nat → List Nat → Option Bool
  | [], _ => some false
  | c :: rest, visited =>
    match f c visited with
    | none => none
    | some true => some true
    | some false => blockSearchChildren f rest visited

/-- `doesTaskEventuallyBlock(taskAId, taskBId, userId, visited)`: depth-first
search along `blocks` edges from `taskAId` for a path to `taskBId`.  Each
recursive branch receives a fresh copy of the visited set (`new Set(visited)`),
so sibling branches do not see each other's additions.  `none` means no answer
within `fuel` nested calls. -/
def doesTaskEventuallyBlock (st : Store) (userId : Nat) :
    Nat → Nat → Nat → List Nat → Option Bool
  | 0, _, _, _ => none
  | fuel + 1, taskAId, taskBId, visited =>
    if visited.contains taskAId then some false
    else
      let visited' := taskAId :: visited
      match findTask st taskAId userId with
      | none => some false
      | some taskA =>
        if taskA.blocks.contains taskBId then some true
        else
          blockSearchChildren
            (fun c v => doesTaskEventuallyBlock st userId fuel c taskBId v)
            taskA.blocks visited'

/-- `validateNoCircularBlocking(blockingTaskId, blockedTaskId, userId)`: fails
with the circular-dependency error when the blocked task already reaches the
blocking task through `blocks` edges. -/
def validateNoCircularBlocking (st : Store) (fuel blockingTaskId blockedTaskId userId : Nat) :
    Option (Except Err Unit) :=
  (doesTaskEventuallyBlock st userId fuel blockedTaskId blockingTaskId []).map
    (fun wouldCreateCircle =>
      if wouldCreateCircle then .error .circularDependency else .ok ())

/-- `isAncestor(taskAId, taskBId, userId)`: walk the parent chain of `taskB`
upward looking for `taskAId`; unbounded recursion in the source. -/
def isAncestor (st : Store) (userId : Nat) :
    Nat → Nat → Nat → Option Bool
  | 0, _, _ => none
  | fuel + 1, taskAId, taskBId =>
    match findTask st taskBId userId with
    | none => some false
    | some taskB =>
      match taskB.parentTaskId with
      | none => some false
      | some pid =>
        if (findTaskAnyUser st pid).isNone then some false
        else if pid == taskAId then some true
        else isAncestor st userId fuel taskAId pid

/-- `validateNoHierarchyConflict(blockingTaskId, blockedTaskId, userId)`:
neither task may be an ancestor of the other. -/
def validateNoHierarchyConflict (st : Store) (fuel blockingTaskId blockedTaskId userId : Nat) :
    Option (Except Err Unit) :=
  match isAncestor st userId fuel blockingTaskId blockedTaskId with
  | none => none
  | some true => some (.error .invalidRelationship)
  | some false =>
    match isAncestor st userId fuel blockedTaskId blockingTaskId with
    | none => none
    | some true => some (.error .invalidRelationship)
    | some false => some (.ok ())

/-- `validateBlockingRules(blockingTask, blockedTask, userId)`: a completed
task may not block; recurring instances and recurring templates may neither
block nor be blocked; no blocking between hierarchy ancestors and
descendants; and the logical-ordering rule (blocking task scheduled after the
blocked task) is a hard `BadRequestException` despite its "Warning" text. -/
def validateBlockingRules (st : Store) (fuel : Nat) (blockingTask blockedTask : Task)
    (userId : Nat) : Option (Except Err Unit) :=
  if blockingTask.completed then some (.error .invalidRelationship)
  else if blockingTask.parentRecurrencyId.isSome then some (.error .invalidRelationship)
  else if blockedTask.parentRecurrencyId.isSome then some (.error .invalidRelationship)
  else if blockingTask.recurrencePattern.isSome then some (.error .invalidRelationship)
  else if blockedTask.recurrencePattern.isSome then some (.error .invalidRelationship)
  else
    match validateNoHierarchyConflict st fuel blockingTask.id blockedTask.id userId with
    | none => none
    | some (.error e) => some (.error e)
    | some (.ok ()) =>
      if blockedTask.scheduledTime.toAbs < blockingTask.scheduledTime.toAbs then
        some (.error .invalidRelationship)
      else
        some (.ok ())

/-- `addBlockingRelationship(blockingTaskId, blockedTaskId, userId)`:
existence and ownership of both tasks, self-reference check, duplicate check
on the `blocks` side, cycle detection, business rules, then push the edge and
save. -/
def addBlockingRelationship (st : Store) (fuel blockingTaskId blockedTaskId userId : Nat) :
    Option (Except Err Store) :=
  match findTask st blockingTaskId userId, findTask st blockedTaskId userId with
  | none, _ => some (.error .notFound)
  | some _, none => some (.error .notFound)
  | some blockingTask, some blockedTask =>
    if blockingTaskId == blockedTaskId then some (.error .selfReference)
    else if blockingTask.blocks.contains blockedTaskId then
      some (.error .duplicateRelationship)
    else
      match validateNoCircularBlocking st fuel blockingTaskId blockedTaskId userId with
      | none => none
      | some (.error e) => some (.error e)
      | some (.ok ()) =>
        match validateBlockingRules st fuel blockingTask blockedTask userId with
        | none => none
        | some (.error e) => some (.error e)
        | some (.ok ()) =>
          some (.ok (replaceTask st
            { blockingTask with blocks := blockingTask.blocks ++ [blockedTaskId] }))

/-- `removeBlockingRelationship(blockingTaskId, blockedTaskId, userId)`:
filter the edge out of the `blocks` side and save; no error if absent. -/
def removeBlockingRelationship (st : Store) (blockingTaskId blockedTaskId userId : Nat) :
    Except Err Store :=
  match findTask st blockingTaskId userId with
  | none => .error .notFound
  | some blockingTask =>
    .ok (replaceTask st
      { blockingTask with blocks := blockingTask.blocks.filter (fun i => i != blockedTaskId) })

/-- `getBlockingTasks(taskId, userId)`: the `blockedBy` relation rows. -/
def getBlockingTasks (st : Store) (taskId userId : Nat) : Except Err (List Task) :=
  match findTask st taskId userId with
  | none => .error .notFound
  | some _ => .ok (blockedByOf st taskId)

/-- `validateTaskCanBeCompleted(taskId, userId)`: fails when an incomplete
task blocks this one. -/
def validateTaskCanBeCompleted (st : Store) (taskId userId : Nat) : Except Err Unit :=
  match getBlockingTasks st taskId userId with
  | .error e => .error e
  | .ok blockingTasks =>
    if (blockingTasks.filter (fun t => !t.completed)).isEmpty then .ok ()
    else .error .blockedByDependency

/-! ## Recurrence engine (`RecurringTaskService`) -/

/-- Optimal buffer in days per pattern (default 7 for the fallback arm). -/
def getOptimalBuffer : Option RecurrencePattern → Nat
  | some .daily => 3
  | some .weekly => 14
  | some .monthly => 60
  | some .yearly => 365
  | none => 7

/-- `Math.ceil(getOptimalBuffer(pattern) * 0.3)`.  For the four buffer sizes
(3, 14, 60, 365) IEEE-double evaluation of `* 0.3` followed by `ceil` yields
1, 5, 18 and 110, which coincides with the exact rational ceiling
`⌈3·b/10⌉ = (3·b + 9) / 10` used here. -/
def getMinBuffer (pattern : Option RecurrencePattern) : Nat :=
  (3 * getOptimalBuffer pattern + 9) / 10

/-- `parentTask.recurrenceInterval || 1` (0 and absent are falsy). -/
def effectiveInterval : Option Nat → Nat
  | none => 1
  | some k => if k == 0 then 1 else k

/-- `getNextScheduledTime(currentTime, pattern, interval)`: advance by
`interval` days / weeks / calendar months / calendar years, with native
`Date` rollover (`setDate` / `setMonth` / `setFullYear`). -/
def getNextScheduledTime (currentTime : DateM) (pattern : RecurrencePattern)
    (interval : Nat) : DateM :=
  match pattern with
  | .daily => normalizeD { currentTime with day := currentTime.day + interval }
  | .weekly => normalizeD { currentTime with day := currentTime.day + 7 * interval }
  | .monthly => normalizeD { currentTime with monthIdx := currentTime.monthIdx + interval }
  | .yearly => normalizeD { currentTime with monthIdx := currentTime.monthIdx + 12 * interval }

/-- `countUpcomingInstances(parentRecurrencyId)`: incomplete instances of the
template scheduled strictly after `now` (no owner filter in the source). -/
def countUpcomingInstances (st : Store) (now parentRecurrencyId : Nat) : Nat :=
  (st.filter (fun t =>
    t.parentRecurrencyId == some parentRecurrencyId && !t.completed &&
      decide (now < t.scheduledTime.toAbs))).length

/-- `needsMoreInstances(parentTask)`. -/
def needsMoreInstances (st : Store) (now : Nat) (parentTask : Task) : Bool :=
  countUpcomingInstances st now parentTask.id < getMinBuffer parentTask.recurrencePattern

/-- `findOne({ where: { parentRecurrencyId }, order: { scheduledTime: 'DESC' } })`:
the instance with the latest scheduled time. -/
def lastInstanceOf (st : Store) (parentRecurrencyId : Nat) : Option Task :=
  (st.filter (fun t => t.parentRecurrencyId == some parentRecurrencyId)).foldl
    (fun acc t =>
      match acc with
      | none => some t
      | some a => if a.scheduledTime.toAbs < t.scheduledTime.toAbs then some t else acc)
    none

/-- `nextScheduledTime > parentTask.recurrenceEndDate` (false with no end
date): the loop's break condition. -/
def pastEnd (parentTask : Task) (a : Nat) : Bool :=
  match parentTask.recurrenceEndDate with
  | some e => decide (e.toAbs < a)
  | none => false

/-- The duplicate-timestamp existence check: an instance of the template at
exactly this timestamp. -/
def hasInstanceAt (st : Store) (parentRecurrencyId a : Nat) : Bool :=
  st.any (fun t => t.parentRecurrencyId == some parentRecurrencyId &&
    t.scheduledTime.toAbs == a)

/-- The fresh instance row inserted by the generation loop. -/
def freshInstance (st : Store) (parentTask : Task) (nextScheduledTime : DateM) : Task :=
  { id := nextId st, userId := parentTask.userId,
    title := parentTask.title, description := parentTask.description,
    scheduledTime := nextScheduledTime,
    parentRecurrencyId := some parentTask.id }

/-- The `while (nextScheduledTime <= bufferDate)` loop of
`generateInstancesForOptimalBuffer`: break past the recurrence end date, skip
candidates whose exact timestamp already has an instance of this template,
otherwise insert a fresh incomplete instance (copying title, description,
owner, lineage) and request reminder scheduling for it. -/
def generateLoop (now : Nat) (parentTask : Task) (pattern : RecurrencePattern)
    (interval bufferAbs : Nat) :
    Nat → DateM → Store → List Event → Option (Store × List Event)
  | 0, _, _, _ => none
  | fuel + 1, nextScheduledTime, st, evs =>
    if nextScheduledTime.toAbs ≤ bufferAbs then
      if pastEnd parentTask nextScheduledTime.toAbs then
        some (st, evs)
      else
        let st' := if hasInstanceAt st parentTask.id nextScheduledTime.toAbs then st
          else st ++ [freshInstance st parentTask nextScheduledTime]
        let evs' := if hasInstanceAt st parentTask.id nextScheduledTime.toAbs then evs
          else evs ++ [.reminders (nextId st)]
        generateLoop now parentTask pattern interval bufferAbs fuel
          (getNextScheduledTime nextScheduledTime pattern interval) st' evs'
    else some (st, evs)

/-- `generateInstancesForOptimalBuffer(parentTask)`: no-op when the recurrence
end date is already past; otherwise seed from the latest existing instance
(or the template itself) and generate up to `now + optimal buffer` days.
With a `null` pattern the source's `getNextScheduledTime` throws
(`Unsupported recurrence pattern`); every call site guards against that, and
the model returns `none` there. -/
def generateInstancesForOptimalBuffer (st : Store) (fuel now : Nat) (parentTask : Task) :
    Option (Store × List Event) :=
  match parentTask.recurrencePattern with
  | none => none
  | some pattern =>
    let bufferAbs := now + getOptimalBuffer parentTask.recurrencePattern * 1440
    if pastEnd parentTask now then
      some (st, [])
    else
      let interval := effectiveInterval parentTask.recurrenceInterval
      let seed := match lastInstanceOf st parentTask.id with
        | some lastInstance => lastInstance.scheduledTime
        | none => parentTask.scheduledTime
      generateLoop now parentTask pattern interval bufferAbs fuel
        (getNextScheduledTime seed pattern interval) st []

/-- `onTaskInstanceCompleted(completedInstance)`: when an instance of a
template completes, re-check the buffer and regenerate if below threshold.
The template lookup has no owner filter in the source. -/
def onTaskInstanceCompleted (st : Store) (fuel now : Nat) (completedInstance : Task) :
    Option (Store × List Event) :=
  match completedInstance.parentRecurrencyId with
  | none => some (st, [])
  | some pid =>
    match findTaskAnyUser st pid with
    | none => some (st, [])
    | some parentTask =>
      if parentTask.recurrencePattern.isNone then some (st, [])
      else if needsMoreInstances st now parentTask then
        (generateInstancesForOptimalBuffer st fuel now parentTask).map
          (fun r => (r.1, Event.recurrenceRegen pid :: r.2))
      else some (st, [])

/-- The partial update payload of `update` (`UpdateTaskDto` /
`Partial<Task>`).  `none` models an absent (`undefined`) field; for
`parentTaskId`, `some none` models an explicit `null`. -/
structure UpdateTaskDto where
  title : Option String := none
  description : Option String := none
  scheduledTime : Option DateM := none
  completed : Option Bool := none
  recurrencePattern : Option RecurrencePattern := none
  recurrenceInterval : Option Nat := none
  recurrenceEndDate : Option DateM := none
  parentTaskId : Option (Option Nat) := none
deriving Repr, DecidableEq

/-- `Object.assign(task, updateTaskDto)` followed by `save`: absent
(`undefined`) fields leave the stored column unchanged. -/
def applyDto (t : Task) (dto : UpdateTaskDto) : Task :=
  { t with
    title := dto.title.getD t.title
    description := match dto.description with
      | some d => some d
      | none => t.description
    scheduledTime := dto.scheduledTime.getD t.scheduledTime
    completed := dto.completed.getD t.completed
    recurrencePattern := match dto.recurrencePattern with
      | some p => some p
      | none => t.recurrencePattern
    recurrenceInterval := match dto.recurrenceInterval with
      | some i => some i
      | none => t.recurrenceInterval
    recurrenceEndDate := match dto.recurrenceEndDate with
      | some e => some e
      | none => t.recurrenceEndDate
    parentTaskId := match dto.parentTaskId with
      | some v => v
      | none => t.parentTaskId }

/-- JavaScript truthiness of an optional numeric id (0 and absent are falsy). -/
def optTruthy : Option Nat → Bool
  | none => false
  | some n => n != 0

/-- Truthiness of `updateData.recurrenceInterval` (a number: 0 is falsy). -/
def intervalTruthy : Option Nat → Bool
  | none => false
  | some n => n != 0

/-- `updateRecurringTask(taskId, updateData, userId)`: when the task is a
recurring template and a schedule-affecting field is present, delete all
future incomplete instances (no owner filter), apply the update, and
regenerate.  The post-save regeneration condition reads the mutated `task`
object, i.e. the updated values. -/
def updateRecurringTask (st : Store) (fuel now taskId : Nat) (updateData : UpdateTaskDto)
    (userId : Nat) : Option (Except Err (Store × List Event)) :=
  match findTask st taskId userId with
  | none => some (.error .internalError)
  | some task =>
    let scheduleFieldsUpdated :=
      updateData.scheduledTime.isSome || updateData.recurrencePattern.isSome ||
        intervalTruthy updateData.recurrenceInterval || updateData.recurrenceEndDate.isSome
    let st1 :=
      if task.recurrencePattern.isSome && task.parentRecurrencyId == none &&
          scheduleFieldsUpdated then
        st.filter (fun t => !(t.parentRecurrencyId == some taskId && !t.completed &&
          decide (now < t.scheduledTime.toAbs)))
      else st
    let updatedTask := applyDto task updateData
    let st2 := replaceTask st1 updatedTask
    if updatedTask.recurrencePattern.isSome && updatedTask.parentRecurrencyId == none &&
        scheduleFieldsUpdated then
      (generateInstancesForOptimalBuffer st2 fuel now updatedTask).map
        (fun r => .ok (r.1, Event.recurrenceRegen taskId :: r.2))
    else
      some (.ok (st2, []))

/-! ## Task orchestrator (`TasksService`) -/

/-- `update(id, updateTaskDto, user)`: the orchestrated update.  In order:
recurrence/hierarchy conversion rejections; the completion gates on a
false→true `completed` transition; recurring-parent checks, the cycle check
and the due-date check when `parentTaskId` is changing (or the due-date check
alone when only `scheduledTime` changes for a child); delegation to
`updateRecurringTask` for templates; persist; on a false→true transition fire
the completed notification, the recurrence hook and the ancestor cascade; and
re-schedule reminders on a `scheduledTime` change of an incomplete task. -/
def update (st : Store) (fuel now id : Nat) (updateTaskDto : UpdateTaskDto)
    (userId : Nat) : Option (Except Err (Store × List Event)) :=
  match findTask st id userId with
  | none => some (.error .notFound)
  | some task =>
    if updateTaskDto.recurrencePattern.isSome && optTruthy task.parentTaskId then
      some (.error .invalidRelationship)
    else if updateTaskDto.recurrencePattern.isSome && !(childrenOf st task.id).isEmpty then
      some (.error .invalidRelationship)
    else if (match updateTaskDto.parentTaskId with
             | some (some n) => n != 0
             | _ => false) && task.recurrencePattern.isSome then
      some (.error .invalidRelationship)
    else
      match
        ((if updateTaskDto.completed == some true && !task.completed then
          match validateParentCompletion st id userId with
          | .error e => .error e
          | .ok () => validateTaskCanBeCompleted st id userId
        else .ok ()) : Except Err Unit) with
      | .error e => some (.error e)
      | .ok () =>
        match
          ((match updateTaskDto.parentTaskId with
           | some (some np) =>
             -- `parentTaskId !== undefined` and `!== null`
             match findTask st np userId with
             | some parentTask =>
               if parentTask.recurrencePattern.isSome then some (.error .invalidRelationship)
               else if optTruthy parentTask.parentRecurrencyId then
                 some (.error .invalidRelationship)
               else
                 match validateNoCircularDependency st fuel id np userId with
                 | none => none
                 | some (.error e) => some (.error e)
                 | some (.ok ()) =>
                   some ((validateChildDueDate st
                     (updateTaskDto.scheduledTime.getD task.scheduledTime) np userId))
             | none =>
               match validateNoCircularDependency st fuel id np userId with
               | none => none
               | some (.error e) => some (.error e)
               | some (.ok ()) =>
                 some ((validateChildDueDate st
                   (updateTaskDto.scheduledTime.getD task.scheduledTime) np userId))
           | some none => some (.ok ())
           | none =>
             if updateTaskDto.scheduledTime.isSome && optTruthy task.parentTaskId then
               some (validateChildDueDate st (updateTaskDto.scheduledTime.getD
                 task.scheduledTime) (task.parentTaskId.getD 0) userId)
             else some (.ok ())) : Option (Except Err Unit)) with
        | none => none
        | some (.error e) => some (.error e)
        | some (.ok ()) =>
          if task.recurrencePattern.isSome && task.parentRecurrencyId == none then
            updateRecurringTask st fuel now id updateTaskDto userId
          else
            let wasCompleted := task.completed
            let updatedTask := applyDto task updateTaskDto
            let st1 := replaceTask st updatedTask
            match
              ((if !wasCompleted && updateTaskDto.completed == some true then
                match onTaskInstanceCompleted st1 fuel now updatedTask with
                | none => none
                | some (st2, evs2) =>
                  match checkAndCompleteParentTasks st2 userId fuel id with
                  | none => none
                  | some st3 => some (st3, Event.taskCompleted id :: evs2)
              else some (st1, [])) : Option (Store × List Event)) with
            | none => none
            | some (stF, evs) =>
              let evsF := if updateTaskDto.scheduledTime.isSome && !updatedTask.completed
                then evs ++ [.reminders id] else evs
              some (.ok (stF, evsF))

/-- `markAsCompleted(id, user)`: the two completion gates, `update` with
`completed = true`, then the ancestor cascade (run a second time here). -/
def markAsCompleted (st : Store) (fuel now id userId : Nat) :
    Option (Except Err (Store × List Event)) :=
  match validateParentCompletion st id userId with
  | .error e => some (.error e)
  | .ok () =>
    match validateTaskCanBeCompleted st id userId with
    | .error e => some (.error e)
    | .ok () =>
      match update st fuel now id { completed := some true } userId with
      | none => none
      | some (.error e) => some (.error e)
      | some (.ok (st1, evs)) =>
        match checkAndCompleteParentTasks st1 userId fuel id with
        | none => none
        | some st2 => some (.ok (st2, evs))

/-- `markAsIncomplete(id, user)`: `update` with `completed = false`. -/
def markAsIncomplete (st : Store) (fuel now id userId : Nat) :
    Option (Except Err (Store × List Event)) :=
  update st fuel now id { completed := some false } userId

/-! ## Spec-side predicates -/

/-- The completion invariant of the spec (§3, §8): every completed task has
all direct children completed and all tasks blocking it completed. -/
def completedInvariant (st : Store) : Bool :=
  st.all (fun t => !t.completed ||
    ((childrenOf st t.id).all (fun c => c.completed) &&
      (blockedByOf st t.id).all (fun b => b.completed)))

/-- The mutual-exclusivity invariant of the spec (§3): a recurring template
(pattern set, no lineage back-reference) has no parent and no children; a
recurring instance has no children. -/
def mutualExclusivity (st : Store) : Bool :=
  st.all (fun t =>
    (!(t.recurrencePattern.isSome && t.parentRecurrencyId == none) ||
      (t.parentTaskId == none && (childrenOf st t.id).isEmpty)) &&
    (!t.parentRecurrencyId.isSome || (childrenOf st t.id).isEmpty))

/-- One `blocks` edge from `a` to `b`, with `a` owned by `userId` (the
depth-first search loads each node with an owner-filtered `findOne`). -/
def blocksEdge (st : Store) (userId a b : Nat) : Prop :=
  ∃ t, findTask st a userId = some t ∧ b ∈ t.blocks

/-- `b` is reachable from `a` through one or more `blocks` edges. -/
def ReachesBlocks (st : Store) (userId a b : Nat) : Prop :=
  Relation.TransGen (blocksEdge st userId) a b

/-- The primary keys of the user's rows — the nodes an owner-filtered
traversal can visit. -/
def ownedIds (st : Store) (userId : Nat) : Finset Nat :=
  ((st.filter (fun t => t.userId == userId)).map Task.id).toFinset

/-- A walk along `blocks` edges from `a` to `b` through the listed
intermediate nodes. -/
def IsBlockWalk (st : Store) (userId : Nat) : Nat → List Nat → Nat → Prop
  | a, [], b => blocksEdge st userId a b
  | a, c :: l, b => blocksEdge st userId a c ∧ IsBlockWalk st userId c l b

/-- The k-th iterate of the recurrence step from `seed` (the loop's
candidates are k = 1, 2, ...). -/
def occurrence (seed : DateM) (pattern : RecurrencePattern) (interval : Nat) :
    Nat → DateM
  | 0 => seed
  | k + 1 => getNextScheduledTime (occurrence seed pattern interval k) pattern interval

/-- The seed of a generation run: the latest existing instance, or the
template itself. -/
def generationSeed (st : Store) (parentTask : Task) : DateM :=
  match lastInstanceOf st parentTask.id with
  | some lastInstance => lastInstance.scheduledTime
  | none => parentTask.scheduledTime

/-- The occurrence times (k = 1 .. n) that the amended C2 bound counts:
strictly future, within the optimal-buffer horizon, not beyond the
recurrence end date, and not already taken by a completed instance of the
template in the starting store. -/
def qualifyingOccurrences (st : Store) (now : Nat) (parentTask : Task)
    (pattern : RecurrencePattern) (interval n : Nat) : List Nat :=
  let bufferAbs := now + getOptimalBuffer parentTask.recurrencePattern * 1440
  ((List.range n).map (fun k =>
    (occurrence (generationSeed st parentTask) pattern interval (k + 1)).toAbs)).filter
    (fun a => decide (now < a) && decide (a ≤ bufferAbs) &&
      (match parentTask.recurrenceEndDate with
       | some e => decide (a ≤ e.toAbs)
       | none => true) &&
      !(st.any (fun t => t.parentRecurrencyId == some parentTask.id &&
          t.scheduledTime.toAbs == a && t.completed)))

/-! ## Concrete fixtures

All fixtures live in a small calendar: month index 12 is January of year 1,
and `exDay0 = ⟨12, 10, 540⟩` is "day0 at 09:00" (`toAbs = 540540`); day0 at
08:00 is `toAbs = 540480`, day1 at 00:00 starts at `toAbs = 541440`. -/

/-- Day0 at 09:00. -/
def exDay0 : DateM := { monthIdx := 12, day := 10, minute := 540 }

/-- Day1 at 09:00. -/
def exDay1 : DateM := { monthIdx := 12, day := 11, minute := 540 }

/-- Day2 at 09:00. -/
def exDay2 : DateM := { monthIdx := 12, day := 12, minute := 540 }

/-- C1 fixture: a child task (id 1) under a parent (id 2), and a third task
(id 3, incomplete) that blocks the parent. -/
def exC1Store : Store :=
  [{ id := 1, userId := 1, scheduledTime := exDay0, parentTaskId := some 2 },
   { id := 2, userId := 1, scheduledTime := exDay0 },
   { id := 3, userId := 1, scheduledTime := exDay0, blocks := [2] }]

/-- C4 fixture: a malformed store whose `parentTaskId` chain is the 2-cycle
1 → 2 → 1. -/
def exCycleStore : Store :=
  [{ id := 1, userId := 1, scheduledTime := exDay0, parentTaskId := some 2 },
   { id := 2, userId := 1, scheduledTime := exDay0, parentTaskId := some 1 }]

/-- A daily recurring template, id 1, scheduled day0 09:00. -/
def exTemplateDaily : Task :=
  { id := 1, userId := 1, scheduledTime := exDay0,
    recurrencePattern := some .daily, recurrenceInterval := some 1 }

/-- A weekly recurring template, id 1, scheduled day0 09:00. -/
def exTemplateWeekly : Task :=
  { id := 1, userId := 1, scheduledTime := exDay0,
    recurrencePattern := some .weekly, recurrenceInterval := some 1 }

/-- An ordinary task, id 2, scheduled day0 09:00. -/
def exPlainTask : Task := { id := 2, userId := 1, scheduledTime := exDay0 }

/-- C5 fixture: a daily template next to an ordinary task. -/
def exC5Store : Store := [exTemplateDaily, exPlainTask]

/-- C6 fixture: the store right after the daily template was persisted. -/
def exC6Store : Store := [exTemplateDaily]

/-- C2 fixture: the store right after the weekly template was persisted. -/
def exC2Store : Store := [exTemplateWeekly]

/-- The k-th instance the daily template of `exC6Store` generates
(scheduled day-k at 09:00, id k + 1). -/
def exC6Inst (k : Nat) : Task :=
  { id := k + 1, userId := 1,
    scheduledTime := { monthIdx := 12, day := 10 + k, minute := 540 },
    parentRecurrencyId := some 1 }

/-- C7 fixture: a lone parent task (id 2) scheduled day1 09:00. -/
def exC7Store : Store := [{ id := 2, userId := 1, scheduledTime := exDay1 }]

/-- C3/C8 fixture: two ordinary tasks where task 2 already blocks task 1. -/
def exC3Store : Store :=
  [{ id := 1, userId := 1, scheduledTime := exDay0 },
   { id := 2, userId := 1, scheduledTime := exDay0, blocks := [1] }]

/-- C8 fixture: two ordinary incomplete unrelated tasks (ids 6 and 7). -/
def exC8Store : Store :=
  [{ id := 6, userId := 1, scheduledTime := exDay0 },
   { id := 7, userId := 1, scheduledTime := exDay0 }]

/-- C9/C10 fixture: an already-completed task (id 4) with an incomplete
child (id 5) — a store the completion gates would reject. -/
def exC9Store : Store :=
  [{ id := 4, userId := 1, scheduledTime := exDay0, completed := true },
   { id := 5, userId := 1, scheduledTime := exDay0, parentTaskId := some 4 }]

/-! ## Claim theorems -/

/-- C1: the completion invariant is NOT preserved by every public mutating
operation: starting from the consistent store `exC1Store` (task 3, incomplete,
blocks task 2; task 1 is the only child of task 2), `markAsCompleted` of
task 1 succeeds, and the ancestor cascade marks the parent task 2 completed
without checking task 2's blockers, leaving a completed task blocked by an
incomplete one — the invariant fails on the resulting store. -/
theorem c1_cascade_completes_blocked_parent :
    completedInvariant exC1Store = true ∧
      (markAsCompleted exC1Store 10 540540 1 1).map
        (Except.map (fun r => completedInvariant r.1)) = some (.ok false) :=
  ⟨rfl, rfl⟩

/-- C4: the ancestor walk `isDescendant` does not bound its traversal and
never fails closed: on the malformed store `exCycleStore` (parent chain
1 → 2 → 1, two owned tasks) the search for ancestor 7 runs forever — for
every recursion budget it has still not produced an answer, and no
`InvariantViolation` failure exists in the code. -/
theorem c4_ancestor_walk_diverges_on_cycle :
    ∀ fuel, isDescendant exCycleStore 1 fuel 1 7 = none := by
  have h : ∀ fuel, isDescendant exCycleStore 1 fuel 1 7 = none ∧
      isDescendant exCycleStore 1 fuel 2 7 = none := by
    intro fuel
    induction fuel with
    | zero => exact ⟨rfl, rfl⟩
    | succ n ih =>
      refine ⟨?_, ?_⟩
      · show isDescendant exCycleStore 1 n 2 7 = none
        exact ih.2
      · show isDescendant exCycleStore 1 n 1 7 = none
        exact ih.1
  exact fun fuel => (h fuel).1

/-- C5: `moveTask` performs no recurrence-exclusivity validation: on
`exC5Store` (a daily recurring template, id 1, next to an ordinary task,
id 2) moving the template under task 2 succeeds, leaving a recurring template
with a `parentTaskId` — the mutual-exclusivity invariant fails on the result
even though it held before. -/
theorem c5_moveTask_skips_exclusivity :
    mutualExclusivity exC5Store = true ∧
      (moveTask exC5Store 10 1 (some 2) 1).map (Except.map mutualExclusivity)
        = some (.ok false) :=
  ⟨rfl, rfl⟩

/-- C6 counterexample: the claim fails for a template created on day0 before
09:00.  With `now` = day0 08:00 (`toAbs = 540480`) the generation horizon is
day3 08:00, which excludes the day3 09:00 candidate: only two instances (day1
and day2 at 09:00) are generated, not three. -/
theorem c6_counterexample_creation_before_nine :
    (generateInstancesForOptimalBuffer exC6Store 20 540480 exTemplateDaily).map
      (fun r => r.1.map (fun t => (t.parentRecurrencyId, t.scheduledTime.toAbs)))
      = some [(none, 540540), (some 1, 541980), (some 1, 543420)] :=
  rfl

/-- C2 counterexample: a weekly template (interval 1, no end date,
scheduled at `now`) ends a `generateUpToBuffer` run with only 2 future
incomplete instances (at +7 and +14 days), strictly below the minimum buffer
5 = `getMinBuffer weekly`, although with no end date arbitrarily many
instances are obtainable. -/
theorem c2_counterexample_weekly_buffer :
    exTemplateWeekly.recurrenceEndDate = none ∧
      getMinBuffer (some .weekly) = 5 ∧
      (generateInstancesForOptimalBuffer exC2Store 20 540540 exTemplateWeekly).map
        (fun r => countUpcomingInstances r.1 540540 1) = some 2 :=
  ⟨rfl, rfl, rfl⟩

/-- C7: the child due-date check fails with NotFound when the referenced
parent is absent or not owned by the user; with the parent present it fails
with InvalidRelationship exactly when the child's scheduled time is strictly
after the parent's (equal times are accepted), and otherwise passes. -/
theorem c7_validateChildDueDate_spec (st : Store) (childScheduledTime : DateM)
    (parentTaskId userId : Nat) :
    (findTask st parentTaskId userId = none →
      validateChildDueDate st childScheduledTime parentTaskId userId = .error .notFound)
    ∧ ∀ p, findTask st parentTaskId userId = some p →
        (validateChildDueDate st childScheduledTime parentTaskId userId
            = .error .invalidRelationship
          ↔ p.scheduledTime.toAbs < childScheduledTime.toAbs)
        ∧ (childScheduledTime.toAbs ≤ p.scheduledTime.toAbs →
            validateChildDueDate st childScheduledTime parentTaskId userId = .ok ()) := by
  constructor
  · intro h
    simp [validateChildDueDate, h]
  · intro p hp
    constructor
    · constructor
      · intro h
        by_contra hlt
        simp [validateChildDueDate, hp, if_neg hlt] at h
      · intro hlt
        simp [validateChildDueDate, hp, if_pos hlt]
    · intro hle
      have : ¬ p.scheduledTime.toAbs < childScheduledTime.toAbs := by omega
      simp [validateChildDueDate, hp, if_neg this]

/-- C7 witness: attaching a child scheduled at day2 09:00 to the parent of
`exC7Store` (scheduled day1 09:00) fails with InvalidRelationship. -/
theorem c7_witness :
    validateChildDueDate exC7Store exDay2 2 1 = .error .invalidRelationship :=
  (((c7_validateChildDueDate_spec exC7Store exDay2 2 1).2
    { id := 2, userId := 1, scheduledTime := exDay1 } rfl).1).mpr (by decide)

/-- C10: `markAsIncomplete` only flips the target task's completed flag:
for any store containing the task, it succeeds, records no collaborator
invocation (no notification, no recurrence hook, no reminder re-scheduling),
runs no completion gate, and the resulting store is exactly the original with
the target row's `completed` set to false — every other row, in particular a
previously auto-completed ancestor, is untouched. -/
theorem c10_markAsIncomplete_frame (st : Store) (fuel now id userId : Nat) (t : Task)
    (ht : findTask st id userId = some t) :
    markAsIncomplete st fuel now id userId
      = some (.ok (replaceTask st { t with completed := false }, [])) := by
  have happ : applyDto t { completed := some false } = { t with completed := false } := by
    simp [applyDto]
  by_cases hb : (t.recurrencePattern.isSome && t.parentRecurrencyId == none) = true
  · simp [markAsIncomplete, update, ht, hb, updateRecurringTask, intervalTruthy, happ]
  · simp [markAsIncomplete, update, ht, hb, happ]

/-- C10 witness: marking task 5 of `exC9Store` incomplete (it already is)
succeeds, leaves its completed parent task 4 completed, and fires nothing. -/
theorem c10_witness :
    markAsIncomplete exC9Store 3 540540 5 1
      = some (.ok ([{ id := 4, userId := 1, scheduledTime := exDay0, completed := true },
                    { id := 5, userId := 1, scheduledTime := exDay0, parentTaskId := some 4 }],
                   [])) := by
  have h := c10_markAsIncomplete_frame exC9Store 3 540540 5 1
    { id := 5, userId := 1, scheduledTime := exDay0, parentTaskId := some 4 } rfl
  simpa [exC9Store, replaceTask, exDay0] using h

/-- C9: updating an already-completed task with `completed = true` succeeds
regardless of the state of its children or blockers (the completion gates do
not run), records no collaborator invocation (no completed notification, no
recurrence regeneration, no reminder re-scheduling, no cascade), and merely
re-saves the task unchanged. -/
theorem c9_update_completed_idempotent (st : Store) (fuel now id userId : Nat) (t : Task)
    (ht : findTask st id userId = some t) (hc : t.completed = true) :
    update st fuel now id { completed := some true } userId
      = some (.ok (replaceTask st t, [])) := by
  have heta : { t with completed := true } = t := by
    cases t
    simp_all
  have happ : applyDto t { completed := some true } = t := by
    simp [applyDto, heta]
  by_cases hb : (t.recurrencePattern.isSome && t.parentRecurrencyId == none) = true
  · simp [update, ht, hb, hc, updateRecurringTask, intervalTruthy, happ]
  · simp [update, ht, hb, hc, happ]

/-- C9 witness: task 4 of `exC9Store` is completed while its direct child
(task 5) is not, so the hierarchy gate would reject the completion; updating
it with `completed = true` nevertheless succeeds and fires nothing. -/
theorem c9_witness :
    update exC9Store 3 540540 4 { completed := some true } 1
      = some (.ok (exC9Store, [])) := by
  have h := c9_update_completed_idempotent exC9Store 3 540540 4 1
    { id := 4, userId := 1, scheduledTime := exDay0, completed := true } rfl rfl
  simpa [exC9Store, replaceTask, exDay0] using h

/-! ### Store lemmas -/

/-- Facts packaged by a successful owner-filtered lookup. -/
theorem findTask_spec {st : Store} {i u : Nat} {t : Task}
    (h : findTask st i u = some t) : t ∈ st ∧ t.id = i ∧ t.userId = u := by
  have hm := List.mem_of_find?_eq_some h
  have hp := List.find?_some h
  simp at hp
  exact ⟨hm, hp.1, hp.2⟩

/-- In a store with no duplicate primary keys, a row is determined by its id. -/
theorem eq_of_mem_id_nodup {st : Store} (hnd : (st.map Task.id).Nodup)
    {t x : Task} (htm : t ∈ st) (hxm : x ∈ st) (hid : x.id = t.id) : x = t :=
  List.inj_on_of_nodup_map hnd hxm htm hid

/-- Saving a row equal to the one already stored (at every position sharing
its id) changes nothing. -/
theorem replaceTask_eq_self {st : Store} {t : Task}
    (h : ∀ x ∈ st, x.id = t.id → x = t) : replaceTask st t = st := by
  induction st with
  | nil => rfl
  | cons a l ih =>
    have tail := ih (fun x hx hid => h x (List.mem_cons_of_mem a hx) hid)
    show (if a.id == t.id then t else a) :: replaceTask l t = a :: l
    rw [tail]
    by_cases ha : a.id = t.id
    · rw [if_pos (by simpa using ha), h a (List.mem_cons_self a l) ha]
    · rw [if_neg (by simpa using ha)]

/-- After saving a row with the same primary key and owner as a found row,
the lookup returns the saved row. -/
theorem findTask_replaceTask {st : Store} (hnd : (st.map Task.id).Nodup)
    {i u : Nat} {t : Task} (t' : Task) (h : findTask st i u = some t)
    (hid : t'.id = t.id) (hu : t'.userId = t.userId) :
    findTask (replaceTask st t') i u = some t' := by
  induction st with
  | nil => simp [findTask] at h
  | cons a l ih =>
    have hnd' : (l.map Task.id).Nodup := (List.nodup_cons.mp hnd).2
    by_cases hpa : (a.id == i && a.userId == u) = true
    · have ha : a = t := by
        have h2 : List.find? (fun x => x.id == i && x.userId == u) (a :: l) = some a :=
          List.find?_cons_of_pos _ hpa
        exact Option.some.inj (h2.symm.trans h)
      subst ha
      have hrep : (if a.id == t'.id then t' else a) = t' := by
        rw [if_pos (by simpa using hid.symm)]
      show List.find? _ ((if a.id == t'.id then t' else a) :: replaceTask l t') = some t'
      rw [hrep]
      apply List.find?_cons_of_pos
      simp only [Bool.and_eq_true, beq_iff_eq] at hpa ⊢
      exact ⟨hid.trans hpa.1, hu.trans hpa.2⟩
    · have h' : findTask l i u = some t := by
        have : List.find? _ (a :: l) = some t := h
        rwa [List.find?_cons_of_neg _ (by simpa using hpa)] at this
      have htl : t ∈ l := (findTask_spec h').1
      have hane : ¬ (a.id == t'.id) = true := by
        simp only [beq_iff_eq, hid]
        intro hcontra
        have : a.id ∈ l.map Task.id := List.mem_map.mpr ⟨t, htl, hcontra.symm⟩
        exact (List.nodup_cons.mp hnd).1 (by simpa using this)
      show List.find? _ ((if a.id == t'.id then t' else a) :: replaceTask l t') = some t'
      rw [if_neg hane]
      rw [List.find?_cons_of_neg _ (by simpa using hpa)]
      exact ih hnd' h'

/-- Two consecutive saves under the same primary key collapse to the last. -/
theorem replaceTask_replaceTask (st : Store) (t₁ t₂ : Task) (hid : t₁.id = t₂.id) :
    replaceTask (replaceTask st t₁) t₂ = replaceTask st t₂ := by
  unfold replaceTask
  rw [List.map_map]
  apply List.map_congr_left
  intro x _
  by_cases hxa : x.id = t₁.id
  · rw [← hid]
    simp [hxa]
  · rw [← hid]
    simp [hxa]

/-- Filtering is idempotent. -/
theorem filter_idem {α : Type} (p : α → Bool) (l : List α) :
    (l.filter p).filter p = l.filter p :=
  List.filter_eq_self.mpr (fun a ha => (List.mem_filter.mp ha).2)

/-- C8: edge removal is idempotent — when the blocking task exists and is
owned by the caller, removal succeeds even with no edge present and removing
twice equals removing once; and a successfully added edge round-trips:
removing it restores exactly the original store, from which the same add
succeeds again with the same result. -/
theorem c8_remove_idempotent_round_trip (st : Store) (fuel blockingId blockedId userId : Nat)
    (hnd : (st.map Task.id).Nodup) (t : Task)
    (ht : findTask st blockingId userId = some t) :
    (∃ st1, removeBlockingRelationship st blockingId blockedId userId = .ok st1 ∧
        removeBlockingRelationship st1 blockingId blockedId userId = .ok st1)
    ∧ ∀ st2, addBlockingRelationship st fuel blockingId blockedId userId = some (.ok st2) →
        removeBlockingRelationship st2 blockingId blockedId userId = .ok st ∧
        addBlockingRelationship st fuel blockingId blockedId userId = some (.ok st2) := by
  constructor
  · refine ⟨replaceTask st { t with blocks := t.blocks.filter (fun i => i != blockedId) },
      ?_, ?_⟩
    · simp [removeBlockingRelationship, ht]
    · have hf := findTask_replaceTask hnd
        { t with blocks := t.blocks.filter (fun i => i != blockedId) } ht rfl rfl
      simp only [removeBlockingRelationship, hf, filter_idem]
      rw [replaceTask_replaceTask st _ _ rfl]
  · intro st2 hadd
    have hadd0 := hadd
    rcases hfd : findTask st blockedId userId with _ | dt
    · simp only [addBlockingRelationship, ht, hfd] at hadd
      simp at hadd
    · simp only [addBlockingRelationship, ht, hfd] at hadd
      by_cases hEq : (blockingId == blockedId) = true
      · rw [if_pos hEq] at hadd; simp at hadd
      rw [if_neg hEq] at hadd
      by_cases hdup : (t.blocks.contains blockedId) = true
      · rw [if_pos hdup] at hadd; simp at hadd
      rw [if_neg hdup] at hadd
      rcases hcc : validateNoCircularBlocking st fuel blockingId blockedId userId with _ | ercc
      · rw [hcc] at hadd; simp at hadd
      rw [hcc] at hadd
      rcases ercc with e | u
      · simp at hadd
      rcases hrl : validateBlockingRules st fuel t dt userId with _ | errl
      · rw [hrl] at hadd; simp at hadd
      rw [hrl] at hadd
      rcases errl with e | u
      · simp at hadd
      simp only [Option.some.injEq, Except.ok.injEq] at hadd
      have hnotmem : blockedId ∉ t.blocks := by
        intro hmem
        exact hdup (by simpa using hmem)
      have hfilter : (t.blocks ++ [blockedId]).filter (fun i => i != blockedId) = t.blocks := by
        rw [List.filter_append]
        have h1 : t.blocks.filter (fun i => i != blockedId) = t.blocks :=
          List.filter_eq_self.mpr (fun a ha => by
            simp only [ne_eq, bne_iff_ne]
            intro hcontra
            exact hnotmem (hcontra ▸ ha))
        have h2 : [blockedId].filter (fun i => i != blockedId) = [] := by simp
        rw [h1, h2, List.append_nil]
      have hta : findTask st2 blockingId userId
          = some { t with blocks := t.blocks ++ [blockedId] } := by
        rw [← hadd]
        exact findTask_replaceTask hnd { t with blocks := t.blocks ++ [blockedId] } ht rfl rfl
      constructor
      · simp only [removeBlockingRelationship, hta, hfilter]
        rw [← hadd]
        show Except.ok (replaceTask
          (replaceTask st { t with blocks := t.blocks ++ [blockedId] }) t) = Except.ok st
        rw [replaceTask_replaceTask st { t with blocks := t.blocks ++ [blockedId] } t rfl,
          replaceTask_eq_self (fun x hx hid =>
            eq_of_mem_id_nodup hnd (findTask_spec ht).1 hx hid)]
      · exact hadd0

/-- C8 witness: on `exC8Store` (tasks 6 and 7, no edges) removing the absent
edge 6 → 7 succeeds and is idempotent, and the successfully added edge 6 → 7
round-trips through removal and re-addition. -/
theorem c8_witness :
    (∃ st1, removeBlockingRelationship exC8Store 6 7 1 = .ok st1 ∧
        removeBlockingRelationship st1 6 7 1 = .ok st1)
    ∧ (removeBlockingRelationship
          [{ id := 6, userId := 1, scheduledTime := exDay0, blocks := [7] },
           { id := 7, userId := 1, scheduledTime := exDay0 }] 6 7 1 = .ok exC8Store
        ∧ addBlockingRelationship exC8Store 3 6 7 1 = some (.ok
          [{ id := 6, userId := 1, scheduledTime := exDay0, blocks := [7] },
           { id := 7, userId := 1, scheduledTime := exDay0 }])) := by
  have h := c8_remove_idempotent_round_trip exC8Store 3 6 7 1 (by decide)
    { id := 6, userId := 1, scheduledTime := exDay0 } rfl
  refine ⟨h.1, ?_⟩
  have h2 := h.2
    [{ id := 6, userId := 1, scheduledTime := exDay0, blocks := [7] },
     { id := 7, userId := 1, scheduledTime := exDay0 }] rfl
  exact ⟨h2.1, h2.2⟩

/-! ### Blocking-graph reachability and correctness of the cycle search -/

/-- Unfolding equation of the search at a positive budget. -/
theorem doesTaskEventuallyBlock_succ (st : Store) (u fuel a b : Nat) (visited : List Nat) :
    doesTaskEventuallyBlock st u (fuel + 1) a b visited =
      if visited.contains a then some false
      else
        match findTask st a u with
        | none => some false
        | some taskA =>
          if taskA.blocks.contains b then some true
          else
            blockSearchChildren
              (fun c v => doesTaskEventuallyBlock st u fuel c b v)
              taskA.blocks (a :: visited) :=
  rfl

theorem blockSearchChildren_some_true (f : Nat → List Nat → Option Bool) :
    ∀ (cs v : List Nat), blockSearchChildren f cs v = some true →
      ∃ c, c ∈ cs ∧ f c v = some true := by
  intro cs
  induction cs with
  | nil => intro v h; cases h
  | cons c rest ih =>
    intro v h
    rw [show blockSearchChildren f (c :: rest) v =
        (match f c v with
         | none => none
         | some true => some true
         | some false => blockSearchChildren f rest v) from rfl] at h
    rcases hf : f c v with _ | b
    · rw [hf] at h; cases h
    · cases b
      · rw [hf] at h
        obtain ⟨c', hc', hfc'⟩ := ih v h
        exact ⟨c', List.mem_cons_of_mem c hc', hfc'⟩
      · exact ⟨c, List.mem_cons_self c rest, hf⟩

theorem blockSearchChildren_ne_none (f : Nat → List Nat → Option Bool) :
    ∀ (cs v : List Nat), (∀ c ∈ cs, f c v ≠ none) →
      blockSearchChildren f cs v ≠ none := by
  intro cs
  induction cs with
  | nil => intro v _ h; cases h
  | cons c rest ih =>
    intro v hnn h
    rw [show blockSearchChildren f (c :: rest) v =
        (match f c v with
         | none => none
         | some true => some true
         | some false => blockSearchChildren f rest v) from rfl] at h
    rcases hf : f c v with _ | b
    · exact hnn c (List.mem_cons_self c rest) hf
    · cases b
      · rw [hf] at h
        exact ih v (fun x hx => hnn x (List.mem_cons_of_mem c hx)) h
      · rw [hf] at h; cases h

theorem blockSearchChildren_mem_true (f : Nat → List Nat → Option Bool)
    (cs v : List Nat) (c : Nat) (hc : c ∈ cs) (hfc : f c v = some true)
    (hnn : ∀ x ∈ cs, f x v ≠ none) :
    blockSearchChildren f cs v = some true := by
  induction cs with
  | nil => cases hc
  | cons c0 rest ih =>
    rw [show blockSearchChildren f (c0 :: rest) v =
        (match f c0 v with
         | none => none
         | some true => some true
         | some false => blockSearchChildren f rest v) from rfl]
    rcases hf : f c0 v with _ | b
    · exact absurd hf (hnn c0 (List.mem_cons_self c0 rest))
    · cases b
      · rcases List.mem_cons.mp hc with rfl | hc'
        · rw [hfc] at hf; cases hf
        · exact ih hc' (fun x hx => hnn x (List.mem_cons_of_mem c0 hx))
      · rfl

/-- Splitting a walk at a listed intermediate node. -/
theorem isBlockWalk_split (st : Store) (u : Nat) :
    ∀ (l₁ : List Nat) (a c : Nat) (l₂ : List Nat) (b : Nat),
      IsBlockWalk st u a (l₁ ++ c :: l₂) b →
      IsBlockWalk st u a l₁ c ∧ IsBlockWalk st u c l₂ b := by
  intro l₁
  induction l₁ with
  | nil => intro a c l₂ b h; exact ⟨h.1, h.2⟩
  | cons x xs ih =>
    intro a c l₂ b h
    have h2 := ih x c l₂ b h.2
    exact ⟨⟨h.1, h2.1⟩, h2.2⟩

/-- Extending a walk by one edge. -/
theorem isBlockWalk_append (st : Store) (u : Nat) :
    ∀ (l : List Nat) (a c b : Nat), IsBlockWalk st u a l c → blocksEdge st u c b →
      IsBlockWalk st u a (l ++ [c]) b := by
  intro l
  induction l with
  | nil => intro a c b hw he; exact ⟨hw, he⟩
  | cons x xs ih =>
    intro a c b hw he
    exact ⟨hw.1, ih x c b hw.2 he⟩

/-- Reachability is the existence of a walk. -/
theorem reaches_iff_walk (st : Store) (u a b : Nat) :
    ReachesBlocks st u a b ↔ ∃ l, IsBlockWalk st u a l b := by
  constructor
  · intro h
    induction h with
    | single e => exact ⟨[], e⟩
    | @tail x y _ e ih =>
      obtain ⟨l, hw⟩ := ih
      exact ⟨l ++ [x], isBlockWalk_append st u l a x y hw e⟩
  · rintro ⟨l, hw⟩
    induction l generalizing a with
    | nil => exact Relation.TransGen.single hw
    | cons c rest ih => exact Relation.TransGen.head hw.1 (ih c hw.2)

/-- Every walk contains a duplicate-free walk between the same endpoints. -/
theorem walk_dedup (st : Store) (u b : Nat) :
    ∀ (l : List Nat) (a : Nat), IsBlockWalk st u a l b →
      ∃ l', IsBlockWalk st u a l' b ∧ (a :: l').Nodup ∧ ∀ x ∈ l', x ∈ l := by
  intro l
  induction l with
  | nil =>
    intro a h
    exact ⟨[], h, List.nodup_cons.mpr ⟨by simp, List.nodup_nil⟩, by simp⟩
  | cons c rest ih =>
    intro a h
    obtain ⟨r', hr', hndr', hsubr'⟩ := ih c h.2
    by_cases ha : a ∈ c :: r'
    · rcases List.mem_cons.mp ha with ha' | har'
      · subst ha'
        exact ⟨r', hr', hndr', fun x hx => List.mem_cons_of_mem a (hsubr' x hx)⟩
      · obtain ⟨r₁, r₂, rfl⟩ := List.append_of_mem har'
        have hsplit := isBlockWalk_split st u r₁ c a r₂ b hr'
        have hsub : (a :: r₂).Sublist (c :: (r₁ ++ a :: r₂)) := by
          have h1 : (a :: r₂).Sublist (r₁ ++ a :: r₂) := List.sublist_append_right r₁ _
          exact h1.cons c
        refine ⟨r₂, hsplit.2, hndr'.sublist hsub, ?_⟩
        intro x hx
        exact List.mem_cons_of_mem c (hsubr' x (by simp [hx]))
    · refine ⟨c :: r', ⟨h.1, hr'⟩, List.nodup_cons.mpr ⟨ha, hndr'⟩, ?_⟩
      intro x hx
      rcases List.mem_cons.mp hx with rfl | hx'
      · exact List.mem_cons_self x rest
      · exact List.mem_cons_of_mem c (hsubr' x hx')

theorem mem_ownedIds_of_findTask {st : Store} {u i : Nat} {t : Task}
    (h : findTask st i u = some t) : i ∈ ownedIds st u := by
  obtain ⟨hm, hid, hu⟩ := findTask_spec h
  simp only [ownedIds, List.mem_toFinset, List.mem_map]
  exact ⟨t, List.mem_filter.mpr ⟨hm, by simp [hu]⟩, hid⟩

theorem ownedIds_card_le (st : Store) (u : Nat) : (ownedIds st u).card ≤ st.length :=
  le_trans (List.toFinset_card_le _)
    (le_trans (le_of_eq (List.length_map _ _)) (List.length_filter_le _ _))

/-- The owned-nodes budget: one unit more than the unvisited owned nodes is
always enough for the search to answer. -/
theorem dfs_no_fuel (st : Store) (u b : Nat) :
    ∀ (fuel : Nat) (visited : List Nat) (a : Nat),
      (ownedIds st u \ visited.toFinset).card < fuel →
      doesTaskEventuallyBlock st u fuel a b visited ≠ none := by
  intro fuel
  induction fuel with
  | zero => intro v a h; omega
  | succ f ih =>
    intro v a hcard
    rw [doesTaskEventuallyBlock_succ]
    by_cases hv : v.contains a
    · rw [if_pos hv]; simp
    rw [if_neg hv]
    rcases hf : findTask st a u with _ | taskA
    · simp
    dsimp only
    by_cases hb : taskA.blocks.contains b
    · rw [if_pos hb]; simp
    rw [if_neg hb]
    apply blockSearchChildren_ne_none
    intro c _
    apply ih
    have ha_owned : a ∈ ownedIds st u := mem_ownedIds_of_findTask hf
    have ha_nv : a ∉ v.toFinset := by
      simp only [List.mem_toFinset]
      intro hmem
      exact hv (by simpa using hmem)
    have hstep : (ownedIds st u \ (a :: v).toFinset).card
        < (ownedIds st u \ v.toFinset).card := by
      have hins : (a :: v).toFinset = insert a v.toFinset := List.toFinset_cons
      rw [hins, Finset.sdiff_insert]
      exact Finset.card_erase_lt_of_mem (Finset.mem_sdiff.mpr ⟨ha_owned, ha_nv⟩)
    omega

/-- Soundness of the search: a positive answer yields reachability. -/
theorem dfs_sound (st : Store) (u b : Nat) :
    ∀ (fuel a : Nat) (visited : List Nat),
      doesTaskEventuallyBlock st u fuel a b visited = some true →
      ReachesBlocks st u a b := by
  intro fuel
  induction fuel with
  | zero => intro a v h; cases h
  | succ f ih =>
    intro a v h
    rw [doesTaskEventuallyBlock_succ] at h
    by_cases hv : v.contains a
    · rw [if_pos hv] at h; cases h
    rw [if_neg hv] at h
    rcases hf : findTask st a u with _ | taskA
    · rw [hf] at h; cases h
    rw [hf] at h
    dsimp only at h
    by_cases hb : taskA.blocks.contains b
    · exact Relation.TransGen.single ⟨taskA, hf, by simpa using hb⟩
    rw [if_neg hb] at h
    obtain ⟨c, hc, hfc⟩ := blockSearchChildren_some_true _ _ _ h
    exact Relation.TransGen.head ⟨taskA, hf, hc⟩ (ih c _ hfc)

/-- Completeness of the search: a duplicate-free walk avoiding the visited
set is found whenever the budget exceeds the unvisited owned nodes. -/
theorem dfs_complete (st : Store) (u b : Nat) :
    ∀ (l : List Nat) (a : Nat) (visited : List Nat) (fuel : Nat),
      IsBlockWalk st u a l b → (a :: l).Nodup →
      (∀ x ∈ a :: l, x ∉ visited) →
      (ownedIds st u \ visited.toFinset).card < fuel →
      doesTaskEventuallyBlock st u fuel a b visited = some true := by
  intro l
  induction l with
  | nil =>
    intro a v fuel hw hnd hnv hcard
    rcases fuel with _ | f
    · omega
    rw [doesTaskEventuallyBlock_succ]
    obtain ⟨taskA, hf, hmem⟩ := hw
    have hva : ¬ v.contains a = true := by
      intro hcontra
      exact hnv a (List.mem_cons_self a []) (by simpa using hcontra)
    rw [if_neg hva, hf]
    dsimp only
    rw [if_pos (by simpa using hmem)]
  | cons c rest ih =>
    intro a v fuel hw hnd hnv hcard
    rcases fuel with _ | f
    · omega
    rw [doesTaskEventuallyBlock_succ]
    obtain ⟨⟨taskA, hf, hmem⟩, hwrest⟩ := hw
    have hva : ¬ v.contains a = true := by
      intro hcontra
      exact hnv a (List.mem_cons_self a _) (by simpa using hcontra)
    rw [if_neg hva, hf]
    dsimp only
    by_cases hb : taskA.blocks.contains b
    · rw [if_pos hb]
    rw [if_neg hb]
    have ha_owned : a ∈ ownedIds st u := mem_ownedIds_of_findTask hf
    have ha_nv : a ∉ v.toFinset := by
      simp only [List.mem_toFinset]
      exact hnv a (List.mem_cons_self a _)
    have hcard' : (ownedIds st u \ (a :: v).toFinset).card < f := by
      have hins : (a :: v).toFinset = insert a v.toFinset := List.toFinset_cons
      have hlt : (ownedIds st u \ (a :: v).toFinset).card
          < (ownedIds st u \ v.toFinset).card := by
        rw [hins, Finset.sdiff_insert]
        exact Finset.card_erase_lt_of_mem (Finset.mem_sdiff.mpr ⟨ha_owned, ha_nv⟩)
      omega
    apply blockSearchChildren_mem_true _ _ _ c hmem
    · apply ih c (a :: v) f hwrest (List.nodup_cons.mp hnd).2
      · intro x hx
        have hxa : x ≠ a := by
          intro hcontra
          exact (List.nodup_cons.mp hnd).1 (hcontra ▸ hx)
        intro hmem'
        rcases List.mem_cons.mp hmem' with h1 | h2
        · exact hxa h1
        · exact hnv x (List.mem_cons_of_mem a hx) h2
      · exact hcard'
    · intro c' _
      exact dfs_no_fuel st u b f (a :: v) c' hcard'

/-- The hierarchy-conflict rule only ever raises InvalidRelationship. -/
theorem validateNoHierarchyConflict_error {st : Store} {fuel i j u : Nat} {e : Err}
    (h : validateNoHierarchyConflict st fuel i j u = some (.error e)) :
    e = .invalidRelationship := by
  unfold validateNoHierarchyConflict at h
  rcases h1 : isAncestor st u fuel i j with _ | b₁
  · rw [h1] at h; cases h
  cases b₁
  · rw [h1] at h
    rcases h2 : isAncestor st u fuel j i with _ | b₂
    · rw [h2] at h; cases h
    cases b₂
    · rw [h2] at h; simp at h
    · rw [h2] at h
      simp only [Option.some.injEq, Except.error.injEq] at h
      exact h.symm
  · rw [h1] at h
    simp only [Option.some.injEq, Except.error.injEq] at h
    exact h.symm

/-- The business rules of edge insertion only ever raise
InvalidRelationship, never CircularDependency. -/
theorem validateBlockingRules_error {st : Store} {fuel : Nat} {bt dt : Task} {u : Nat}
    {e : Err} (h : validateBlockingRules st fuel bt dt u = some (.error e)) :
    e = .invalidRelationship := by
  unfold validateBlockingRules at h
  rcases hc : validateNoHierarchyConflict st fuel bt.id dt.id u with _ | r
  · split_ifs at h <;> simp_all
  · rcases r with e2 | u2
    · have he2 := validateNoHierarchyConflict_error hc
      split_ifs at h <;> simp_all
    · split_ifs at h <;> simp_all

/-- C3: on a store whose blocks edges form a DAG, for distinct existing
same-owner tasks with no existing blocking → blocked edge,
`addBlockingRelationship` fails with CircularDependency exactly when the
blocked task already reaches the blocking task through `blocks` edges (so in
particular, after adding A → B every attempt to add B → A, direct or
transitive, fails with CircularDependency). -/
theorem c3_circular_iff_reachable (st : Store) (blockingId blockedId userId : Nat)
    (bt dt : Task)
    (hDAG : ∀ x, ¬ ReachesBlocks st userId x x)
    (hbt : findTask st blockingId userId = some bt)
    (hdt : findTask st blockedId userId = some dt)
    (hne : blockingId ≠ blockedId)
    (hnoedge : blockedId ∉ bt.blocks) :
    addBlockingRelationship st (st.length + 1) blockingId blockedId userId
        = some (.error .circularDependency)
      ↔ ReachesBlocks st userId blockedId blockingId := by
  have hfuelcard : (ownedIds st userId \ ([] : List Nat).toFinset).card < st.length + 1 := by
    have := ownedIds_card_le st userId
    simp only [List.toFinset_nil, Finset.sdiff_empty]
    omega
  constructor
  · intro h
    simp only [addBlockingRelationship, hbt, hdt] at h
    rw [if_neg (by simpa using hne)] at h
    rw [if_neg (by simpa using hnoedge)] at h
    rcases hcc : validateNoCircularBlocking st (st.length + 1) blockingId blockedId userId
      with _ | r
    · rw [hcc] at h; cases h
    rcases r with e | u2
    · -- the cycle check itself failed: its verdict came from the search
      unfold validateNoCircularBlocking at hcc
      rcases hdfs : doesTaskEventuallyBlock st userId (st.length + 1)
          blockedId blockingId [] with _ | w
      · rw [hdfs] at hcc; cases hcc
      cases w
      · rw [hdfs] at hcc; simp at hcc
      · exact dfs_sound st userId blockingId _ blockedId [] hdfs
    · -- the cycle check passed: no later step raises CircularDependency
      rw [hcc] at h
      rcases hrl : validateBlockingRules st (st.length + 1) bt dt userId with _ | er
      · rw [hrl] at h; cases h
      rcases er with e2 | u3
      · rw [hrl] at h
        have he2 := validateBlockingRules_error hrl
        subst he2
        simp at h
      · rw [hrl] at h; simp at h
  · intro hr
    obtain ⟨l, hw⟩ := (reaches_iff_walk st userId blockedId blockingId).mp hr
    obtain ⟨l', hw', hnd', _⟩ := walk_dedup st userId blockingId l blockedId hw
    have hdfs : doesTaskEventuallyBlock st userId (st.length + 1)
        blockedId blockingId [] = some true :=
      dfs_complete st userId blockingId l' blockedId [] (st.length + 1) hw' hnd'
        (by simp) hfuelcard
    have hcc : validateNoCircularBlocking st (st.length + 1) blockingId blockedId userId
        = some (.error .circularDependency) := by
      unfold validateNoCircularBlocking
      rw [hdfs]
      rfl
    simp only [addBlockingRelationship, hbt, hdt]
    rw [if_neg (by simpa using hne), if_neg (by simpa using hnoedge), hcc]

/-- C3 witness: on `exC3Store` task 2 already blocks task 1, so the blocked
task 2 reaches the blocking task 1 and adding the edge 1 → 2 fails with
CircularDependency. -/
theorem c3_witness :
    addBlockingRelationship exC3Store 3 1 2 1 = some (.error .circularDependency) := by
  have hedge : ∀ a b, blocksEdge exC3Store 1 a b → a = 2 ∧ b = 1 := by
    rintro a b ⟨t, hf, hm⟩
    obtain ⟨hmem, hid, hu⟩ := findTask_spec hf
    simp only [exC3Store, List.mem_cons, List.not_mem_nil, or_false] at hmem
    rcases hmem with rfl | rfl
    · simp at hm
    · simp at hm
      subst hm
      exact ⟨hid.symm, rfl⟩
  have hlast : ∀ a b, ReachesBlocks exC3Store 1 a b → b = 1 := by
    intro a b hr
    induction hr with
    | single e => exact (hedge _ _ e).2
    | tail _ e _ => exact (hedge _ _ e).2
  have hfirst : ∀ a b, ReachesBlocks exC3Store 1 a b → ∃ c, blocksEdge exC3Store 1 a c := by
    intro a b hr
    induction hr with
    | single e => exact ⟨_, e⟩
    | tail _ _ ih => exact ih
  have hDAG : ∀ x, ¬ ReachesBlocks exC3Store 1 x x := by
    intro x hx
    have hx1 := hlast x x hx
    subst hx1
    obtain ⟨c, hc⟩ := hfirst 1 1 hx
    exact absurd (hedge _ _ hc).1 (by omega)
  have h := c3_circular_iff_reachable exC3Store 1 2 1
    { id := 1, userId := 1, scheduledTime := exDay0 }
    { id := 2, userId := 1, scheduledTime := exDay0, blocks := [1] }
    hDAG rfl rfl (by omega) (by simp)
  exact h.mpr (Relation.TransGen.single
    ⟨{ id := 2, userId := 1, scheduledTime := exDay0, blocks := [1] }, rfl, by simp⟩)

/-! ### Generation-loop lemmas -/

/-- Unfolding equation of the generation loop at a positive budget. -/
theorem generateLoop_succ (now : Nat) (pt : Task) (p : RecurrencePattern)
    (i bufferAbs fuel : Nat) (next : DateM) (st : Store) (evs : List Event) :
    generateLoop now pt p i bufferAbs (fuel + 1) next st evs =
      if next.toAbs ≤ bufferAbs then
        if pastEnd pt next.toAbs then some (st, evs)
        else
          generateLoop now pt p i bufferAbs fuel (getNextScheduledTime next p i)
            (if hasInstanceAt st pt.id next.toAbs then st
              else st ++ [freshInstance st pt next])
            (if hasInstanceAt st pt.id next.toAbs then evs
              else evs ++ [.reminders (nextId st)])
      else some (st, evs) :=
  rfl

/-- Loop exit: the candidate is beyond the buffer horizon. -/
theorem generateLoop_exit (now : Nat) (pt : Task) (p : RecurrencePattern)
    (i bufferAbs fuel : Nat) (next : DateM) (st : Store) (evs : List Event)
    (h : bufferAbs < next.toAbs) :
    generateLoop now pt p i bufferAbs (fuel + 1) next st evs = some (st, evs) := by
  rw [generateLoop_succ, if_neg (by omega)]

/-- Loop step that inserts a fresh instance. -/
theorem generateLoop_step_new (now : Nat) (pt : Task) (p : RecurrencePattern)
    (i bufferAbs fuel : Nat) (next : DateM) (st : Store) (evs : List Event)
    (h1 : next.toAbs ≤ bufferAbs) (h2 : pastEnd pt next.toAbs = false)
    (h3 : hasInstanceAt st pt.id next.toAbs = false) :
    generateLoop now pt p i bufferAbs (fuel + 1) next st evs =
      generateLoop now pt p i bufferAbs fuel (getNextScheduledTime next p i)
        (st ++ [freshInstance st pt next]) (evs ++ [.reminders (nextId st)]) := by
  rw [generateLoop_succ, if_pos h1, if_neg (by simp [h2]), if_neg (by simp [h3]),
    if_neg (by simp [h3])]

/-- Loop step that skips an already-taken timestamp. -/
theorem generateLoop_step_skip (now : Nat) (pt : Task) (p : RecurrencePattern)
    (i bufferAbs fuel : Nat) (next : DateM) (st : Store) (evs : List Event)
    (h1 : next.toAbs ≤ bufferAbs) (h2 : pastEnd pt next.toAbs = false)
    (h3 : hasInstanceAt st pt.id next.toAbs = true) :
    generateLoop now pt p i bufferAbs (fuel + 1) next st evs =
      generateLoop now pt p i bufferAbs fuel (getNextScheduledTime next p i) st evs := by
  rw [generateLoop_succ, if_pos h1, if_neg (by simp [h2]), if_pos h3, if_pos h3]

/-- C6 amended: the daily template scheduled day0 09:00, with
`generateUpToBuffer` run at any moment of day0 from 09:00 on (09:00 is the
moment `createRecurringTask` runs for a template created at its scheduled
time), produces exactly three instances — day1, day2 and day3 at 09:00 — and
nothing beyond day3; created strictly before 09:00 it produces only two (see
the counterexample). -/
theorem c6_amended_daily_three_instances (c : Nat) (h1 : 540540 ≤ c) (h2 : c ≤ 541439) :
    (generateInstancesForOptimalBuffer exC6Store 20 c exTemplateDaily).map
      (fun r => r.1.map (fun t => (t.parentRecurrencyId, t.scheduledTime.toAbs)))
      = some [(none, 540540), (some 1, 541980), (some 1, 543420), (some 1, 544860)] := by
  have e0 : generateInstancesForOptimalBuffer exC6Store 20 c exTemplateDaily
      = generateLoop c exTemplateDaily .daily 1 (c + 4320) 20
          { monthIdx := 12, day := 11, minute := 540 } exC6Store [] := rfl
  have ht1 : DateM.toAbs { monthIdx := 12, day := 11, minute := 540 } = 541980 := rfl
  have ht2 : DateM.toAbs { monthIdx := 12, day := 12, minute := 540 } = 543420 := rfl
  have ht3 : DateM.toAbs { monthIdx := 12, day := 13, minute := 540 } = 544860 := rfl
  have ht4 : DateM.toAbs { monthIdx := 12, day := 14, minute := 540 } = 546300 := rfl
  have s1 : generateLoop c exTemplateDaily .daily 1 (c + 4320) 20
        { monthIdx := 12, day := 11, minute := 540 } exC6Store []
      = generateLoop c exTemplateDaily .daily 1 (c + 4320) 19
        { monthIdx := 12, day := 12, minute := 540 } (exC6Store ++ [exC6Inst 1])
        [.reminders 2] :=
    (generateLoop_step_new c exTemplateDaily .daily 1 (c + 4320) 19
      { monthIdx := 12, day := 11, minute := 540 } exC6Store []
      (by rw [ht1]; omega) rfl rfl).trans (by rfl)
  have s2 : generateLoop c exTemplateDaily .daily 1 (c + 4320) 19
        { monthIdx := 12, day := 12, minute := 540 } (exC6Store ++ [exC6Inst 1])
        [.reminders 2]
      = generateLoop c exTemplateDaily .daily 1 (c + 4320) 18
        { monthIdx := 12, day := 13, minute := 540 }
        (exC6Store ++ [exC6Inst 1] ++ [exC6Inst 2]) [.reminders 2, .reminders 3] :=
    (generateLoop_step_new c exTemplateDaily .daily 1 (c + 4320) 18
      { monthIdx := 12, day := 12, minute := 540 } (exC6Store ++ [exC6Inst 1])
      [.reminders 2] (by rw [ht2]; omega) rfl rfl).trans (by rfl)
  have s3 : generateLoop c exTemplateDaily .daily 1 (c + 4320) 18
        { monthIdx := 12, day := 13, minute := 540 }
        (exC6Store ++ [exC6Inst 1] ++ [exC6Inst 2]) [.reminders 2, .reminders 3]
      = generateLoop c exTemplateDaily .daily 1 (c + 4320) 17
        { monthIdx := 12, day := 14, minute := 540 }
        (exC6Store ++ [exC6Inst 1] ++ [exC6Inst 2] ++ [exC6Inst 3])
        [.reminders 2, .reminders 3, .reminders 4] :=
    (generateLoop_step_new c exTemplateDaily .daily 1 (c + 4320) 17
      { monthIdx := 12, day := 13, minute := 540 }
      (exC6Store ++ [exC6Inst 1] ++ [exC6Inst 2]) [.reminders 2, .reminders 3]
      (by rw [ht3]; omega) rfl rfl).trans (by rfl)
  have s4 : generateLoop c exTemplateDaily .daily 1 (c + 4320) 17
        { monthIdx := 12, day := 14, minute := 540 }
        (exC6Store ++ [exC6Inst 1] ++ [exC6Inst 2] ++ [exC6Inst 3])
        [.reminders 2, .reminders 3, .reminders 4]
      = some (exC6Store ++ [exC6Inst 1] ++ [exC6Inst 2] ++ [exC6Inst 3],
        [.reminders 2, .reminders 3, .reminders 4]) :=
    generateLoop_exit c exTemplateDaily .daily 1 (c + 4320) 16
      { monthIdx := 12, day := 14, minute := 540 } _ _ (by rw [ht4]; omega)
  rw [e0, s1, s2, s3, s4]
  rfl

/-- C6 amended witness: at creation moment day0 09:00 exactly, the three
instances day1/day2/day3 09:00 are produced. -/
theorem c6_amended_witness :
    (generateInstancesForOptimalBuffer exC6Store 20 540540 exTemplateDaily).map
      (fun r => r.1.map (fun t => (t.parentRecurrencyId, t.scheduledTime.toAbs)))
      = some [(none, 540540), (some 1, 541980), (some 1, 543420), (some 1, 544860)] :=
  c6_amended_daily_three_instances 540540 (by omega) (by omega)

/-! ### Calendar monotonicity -/

/-- Day-overflow normalization preserves the absolute day count and keeps the
day positive. -/
theorem normalizeDayAux_spec :
    ∀ (budget mi day : Nat), 1 ≤ day →
      monthStartAbs (normalizeDayAux budget mi day).1 + ((normalizeDayAux budget mi day).2 - 1)
          = monthStartAbs mi + (day - 1)
        ∧ 1 ≤ (normalizeDayAux budget mi day).2 := by
  intro budget
  induction budget with
  | zero => intro mi day h; exact ⟨rfl, h⟩
  | succ b ih =>
    intro mi day h
    have hstep : normalizeDayAux (b + 1) mi day =
        if daysInMonth mi < day then normalizeDayAux b (mi + 1) (day - daysInMonth mi)
        else (mi, day) := rfl
    by_cases hc : daysInMonth mi < day
    · rw [hstep, if_pos hc]
      have hdim := daysInMonth_pos mi
      have h' : 1 ≤ day - daysInMonth mi := by omega
      obtain ⟨ha, hb⟩ := ih (mi + 1) (day - daysInMonth mi) h'
      refine ⟨?_, hb⟩
      rw [ha]
      have hms : monthStartAbs (mi + 1) = monthStartAbs mi + daysInMonth mi := rfl
      omega
    · rw [hstep, if_neg hc]
      exact ⟨rfl, h⟩

theorem normalizeD_spec (d : DateM) (h : 1 ≤ d.day) :
    (normalizeD d).toAbs = d.toAbs ∧ 1 ≤ (normalizeD d).day := by
  obtain ⟨ha, hb⟩ := normalizeDayAux_spec d.day d.monthIdx d.day h
  constructor
  · show (monthStartAbs (normalizeDayAux d.day d.monthIdx d.day).1
        + ((normalizeDayAux d.day d.monthIdx d.day).2 - 1)) * 1440 + d.minute
      = (monthStartAbs d.monthIdx + (d.day - 1)) * 1440 + d.minute
    rw [ha]
  · exact hb

theorem monthStartAbs_lt : ∀ (k mi : Nat), monthStartAbs mi < monthStartAbs (mi + (k + 1)) := by
  intro k
  induction k with
  | zero =>
    intro mi
    have hs : monthStartAbs (mi + (0 + 1)) = monthStartAbs mi + daysInMonth mi := rfl
    have hd := daysInMonth_pos mi
    omega
  | succ n ih =>
    intro mi
    have hs : monthStartAbs (mi + (n + 1 + 1))
        = monthStartAbs (mi + (n + 1)) + daysInMonth (mi + (n + 1)) := rfl
    have hd := daysInMonth_pos (mi + (n + 1))
    have := ih mi
    omega

/-- The recurrence step strictly advances the absolute time and preserves day
validity (interval at least 1). -/
theorem getNextScheduledTime_strict (d : DateM) (p : RecurrencePattern) (i : Nat)
    (hd : 1 ≤ d.day) (hi : 1 ≤ i) :
    d.toAbs < (getNextScheduledTime d p i).toAbs ∧ 1 ≤ (getNextScheduledTime d p i).day := by
  cases p with
  | daily =>
    obtain ⟨ha, hb⟩ := normalizeD_spec { d with day := d.day + i } (by simp; omega)
    refine ⟨?_, hb⟩
    rw [show getNextScheduledTime d .daily i = normalizeD { d with day := d.day + i }
      from rfl, ha]
    show d.toAbs < (monthStartAbs d.monthIdx + (d.day + i - 1)) * 1440 + d.minute
    unfold DateM.toAbs
    omega
  | weekly =>
    obtain ⟨ha, hb⟩ := normalizeD_spec { d with day := d.day + 7 * i } (by simp; omega)
    refine ⟨?_, hb⟩
    rw [show getNextScheduledTime d .weekly i = normalizeD { d with day := d.day + 7 * i }
      from rfl, ha]
    show d.toAbs < (monthStartAbs d.monthIdx + (d.day + 7 * i - 1)) * 1440 + d.minute
    unfold DateM.toAbs
    omega
  | monthly =>
    obtain ⟨ha, hb⟩ := normalizeD_spec { d with monthIdx := d.monthIdx + i } hd
    refine ⟨?_, hb⟩
    rw [show getNextScheduledTime d .monthly i
      = normalizeD { d with monthIdx := d.monthIdx + i } from rfl, ha]
    show d.toAbs < (monthStartAbs (d.monthIdx + i) + (d.day - 1)) * 1440 + d.minute
    have hlt : monthStartAbs d.monthIdx < monthStartAbs (d.monthIdx + i) := by
      rcases i with _ | n
      · omega
      · exact monthStartAbs_lt n d.monthIdx
    unfold DateM.toAbs
    omega
  | yearly =>
    obtain ⟨ha, hb⟩ := normalizeD_spec { d with monthIdx := d.monthIdx + 12 * i } hd
    refine ⟨?_, hb⟩
    rw [show getNextScheduledTime d .yearly i
      = normalizeD { d with monthIdx := d.monthIdx + 12 * i } from rfl, ha]
    show d.toAbs < (monthStartAbs (d.monthIdx + 12 * i) + (d.day - 1)) * 1440 + d.minute
    have hlt : monthStartAbs d.monthIdx < monthStartAbs (d.monthIdx + 12 * i) := by
      have h12 : 12 * i = (12 * i - 1) + 1 := by omega
      rw [h12]
      exact monthStartAbs_lt (12 * i - 1) d.monthIdx
    unfold DateM.toAbs
    omega

theorem effectiveInterval_pos (o : Option Nat) : 1 ≤ effectiveInterval o := by
  rcases o with _ | k
  · exact le_refl 1
  · show 1 ≤ (if k == 0 then 1 else k)
    by_cases hk : (k == 0) = true
    · rw [if_pos hk]
    · rw [if_neg hk]
      simp at hk
      omega

/-! ### Occurrence-sequence lemmas -/

theorem occurrence_shift (seed : DateM) (p : RecurrencePattern) (i : Nat) :
    ∀ k, occurrence seed p i (k + 1) = occurrence (getNextScheduledTime seed p i) p i k := by
  intro k
  induction k with
  | zero => rfl
  | succ n ih =>
    show getNextScheduledTime (occurrence seed p i (n + 1)) p i
      = getNextScheduledTime (occurrence (getNextScheduledTime seed p i) p i n) p i
    rw [ih]

theorem occurrence_day (seed : DateM) (p : RecurrencePattern) (i : Nat)
    (hs : 1 ≤ seed.day) (hi : 1 ≤ i) : ∀ k, 1 ≤ (occurrence seed p i k).day := by
  intro k
  induction k with
  | zero => exact hs
  | succ n ih => exact (getNextScheduledTime_strict _ p i ih hi).2

theorem occurrence_strictMono (seed : DateM) (p : RecurrencePattern) (i : Nat)
    (hs : 1 ≤ seed.day) (hi : 1 ≤ i) :
    StrictMono (fun k => (occurrence seed p i k).toAbs) :=
  strictMono_nat_of_lt_succ (fun k =>
    (getNextScheduledTime_strict _ p i (occurrence_day seed p i hs hi k) hi).1)

theorem occurrence_le_of_le (seed : DateM) (p : RecurrencePattern) (i : Nat)
    (hs : 1 ≤ seed.day) (hi : 1 ≤ i) :
    ∀ k, seed.toAbs ≤ (occurrence seed p i k).toAbs := by
  intro k
  induction k with
  | zero => exact le_refl _
  | succ n ih =>
    exact le_trans ih
      (le_of_lt (getNextScheduledTime_strict _ p i (occurrence_day seed p i hs hi n) hi).1)

/-- The break condition is monotone in the candidate time. -/
theorem pastEnd_mono {pt : Task} {a b : Nat} (h : pastEnd pt a = true) (hab : a ≤ b) :
    pastEnd pt b = true := by
  unfold pastEnd at h ⊢
  rcases hend : pt.recurrenceEndDate with _ | e
  · rw [hend] at h; cases h
  · rw [hend] at h
    simp at h ⊢
    omega

theorem hasInstanceAt_iff (st : Store) (pid a : Nat) :
    hasInstanceAt st pid a = true ↔
      ∃ t ∈ st, t.parentRecurrencyId = some pid ∧ t.scheduledTime.toAbs = a := by
  simp [hasInstanceAt, List.any_eq_true]

theorem lastInstanceOf_mem {st : Store} {pid : Nat} {t : Task}
    (h : lastInstanceOf st pid = some t) : t ∈ st := by
  have hgen : ∀ (l : List Task) (acc : Option Task),
      l.foldl (fun acc x =>
        match acc with
        | none => some x
        | some a => if a.scheduledTime.toAbs < x.scheduledTime.toAbs then some x else acc)
        acc = some t →
      acc = some t ∨ t ∈ l := by
    intro l
    induction l with
    | nil => intro acc hacc; exact Or.inl hacc
    | cons x xs ih =>
      intro acc hacc
      rcases ih _ hacc with hstep | hmem
      · rcases acc with _ | a
        · dsimp only at hstep
          simp at hstep
          exact Or.inr (hstep ▸ List.mem_cons_self x xs)
        · dsimp only at hstep
          by_cases hlt : a.scheduledTime.toAbs < x.scheduledTime.toAbs
          · rw [if_pos hlt] at hstep
            simp at hstep
            exact Or.inr (hstep ▸ List.mem_cons_self x xs)
          · rw [if_neg hlt] at hstep
            exact Or.inl hstep
      · exact Or.inr (List.mem_cons_of_mem x hmem)
  unfold lastInstanceOf at h
  rcases hgen _ _ h with hacc | hmem
  · cases hacc
  · exact (List.mem_filter.mp hmem).1

theorem generationSeed_day {st : Store} {parentTask : Task}
    (hvalid : ∀ t ∈ st, 1 ≤ t.scheduledTime.day) (hvt : 1 ≤ parentTask.scheduledTime.day) :
    1 ≤ (generationSeed st parentTask).day := by
  unfold generationSeed
  rcases hl : lastInstanceOf st parentTask.id with _ | lastInstance
  · exact hvt
  · exact hvalid lastInstance (lastInstanceOf_mem hl)

/-! ### Generation-loop coverage -/

/-- Master specification of the generation loop: with a budget exceeding the
minutes to the horizon it terminates; the store only grows; every added row
is an incomplete instance; and every occurrence time within the horizon and
not past the end date ends up carrying an instance of the template. -/
theorem generateLoop_spec (now : Nat) (pt : Task) (p : RecurrencePattern)
    (i bufferAbs : Nat) (hi : 1 ≤ i) :
    ∀ (fuel : Nat) (next : DateM) (st : Store) (evs : List Event),
      1 ≤ next.day → 1 ≤ fuel → bufferAbs + 2 ≤ next.toAbs + fuel →
      ∃ stF evsF,
        generateLoop now pt p i bufferAbs fuel next st evs = some (stF, evsF) ∧
        (∀ t ∈ st, t ∈ stF) ∧
        (∀ t ∈ stF, t ∈ st ∨ t.completed = false) ∧
        (∀ k, (occurrence next p i k).toAbs ≤ bufferAbs →
          pastEnd pt (occurrence next p i k).toAbs = false →
          ∃ t ∈ stF, t.parentRecurrencyId = some pt.id ∧
            t.scheduledTime.toAbs = (occurrence next p i k).toAbs) := by
  intro fuel
  induction fuel with
  | zero => intro next st evs _ hf1 _; omega
  | succ f ih =>
    intro next st evs hday _ hfuel
    by_cases hle : next.toAbs ≤ bufferAbs
    · by_cases hpe : pastEnd pt next.toAbs = true
      · refine ⟨st, evs, ?_, fun t ht => ht, fun t ht => Or.inl ht, ?_⟩
        · rw [generateLoop_succ, if_pos hle, if_pos hpe]
        · intro k _ hkpe
          have hocc : next.toAbs ≤ (occurrence next p i k).toAbs :=
            occurrence_le_of_le next p i hday hi k
          rw [pastEnd_mono hpe hocc] at hkpe
          cases hkpe
      · have hstrict := getNextScheduledTime_strict next p i hday hi
        have hf1' : 1 ≤ f := by omega
        have hfuel' : bufferAbs + 2 ≤ (getNextScheduledTime next p i).toAbs + f := by omega
        by_cases hbi : hasInstanceAt st pt.id next.toAbs = true
        · obtain ⟨stF, evsF, heq, hgrow, hcomp, hcov⟩ :=
            ih (getNextScheduledTime next p i) st evs hstrict.2 hf1' hfuel'
          refine ⟨stF, evsF, ?_, hgrow, hcomp, ?_⟩
          · rw [generateLoop_step_skip now pt p i bufferAbs f next st evs hle
              (by simp [hpe]) hbi]
            exact heq
          · intro k hk hkpe
            rcases k with _ | k'
            · obtain ⟨t, htm, hpr, hta⟩ := (hasInstanceAt_iff st pt.id next.toAbs).mp hbi
              exact ⟨t, hgrow t htm, hpr, hta⟩
            · rw [occurrence_shift] at hk hkpe ⊢
              exact hcov k' hk hkpe
        · have hbi' : hasInstanceAt st pt.id next.toAbs = false := by
            simpa using hbi
          obtain ⟨stF, evsF, heq, hgrow, hcomp, hcov⟩ :=
            ih (getNextScheduledTime next p i) (st ++ [freshInstance st pt next])
              (evs ++ [.reminders (nextId st)]) hstrict.2 hf1' hfuel'
          refine ⟨stF, evsF, ?_, ?_, ?_, ?_⟩
          · rw [generateLoop_step_new now pt p i bufferAbs f next st evs hle
              (by simp [hpe]) hbi']
            exact heq
          · intro t ht
            exact hgrow t (List.mem_append_left _ ht)
          · intro t ht
            rcases hcomp t ht with hmem | hcpl
            · rcases List.mem_append.mp hmem with h1 | h2
              · exact Or.inl h1
              · simp only [List.mem_singleton] at h2
                subst h2
                exact Or.inr rfl
            · exact Or.inr hcpl
          · intro k hk hkpe
            rcases k with _ | k'
            · refine ⟨freshInstance st pt next,
                hgrow _ (List.mem_append_right _ (List.mem_singleton.mpr rfl)), rfl, rfl⟩
            · rw [occurrence_shift] at hk hkpe ⊢
              exact hcov k' hk hkpe
    · refine ⟨st, evs, ?_, fun t ht => ht, fun t ht => Or.inl ht, ?_⟩
      · exact generateLoop_exit now pt p i bufferAbs f next st evs (by omega)
      · intro k hk _
        have hocc : next.toAbs ≤ (occurrence next p i k).toAbs :=
          occurrence_le_of_le next p i hday hi k
        omega

/-- Distinct required times, each witnessed by a row, bound the row count. -/
theorem length_le_of_time_witnesses :
    ∀ (l : List Nat) (fl : List Task), l.Nodup →
      (∀ a ∈ l, ∃ t ∈ fl, t.scheduledTime.toAbs = a) → l.length ≤ fl.length := by
  intro l
  induction l with
  | nil => intro fl _ _; simp
  | cons a rest ih =>
    intro fl hnd hw
    obtain ⟨t, htfl, hta⟩ := hw a (List.mem_cons_self a rest)
    have hrest : ∀ b ∈ rest, ∃ t2 ∈ fl.erase t, t2.scheduledTime.toAbs = b := by
      intro b hb
      obtain ⟨t2, ht2, htb⟩ := hw b (List.mem_cons_of_mem a hb)
      have hba : b ≠ a := fun h => (List.nodup_cons.mp hnd).1 (h ▸ hb)
      have htne : t2 ≠ t := fun h => hba (by rw [← htb, h, hta])
      exact ⟨t2, (List.mem_erase_of_ne htne).mpr ht2, htb⟩
    have hlen := ih (fl.erase t) (List.nodup_cons.mp hnd).2 hrest
    have herase : (fl.erase t).length = fl.length - 1 := List.length_erase_of_mem htfl
    have hpos : 0 < fl.length := List.length_pos.mpr (fun h => by simp [h] at htfl)
    simp only [List.length_cons]
    omega

/-- C2 amended: the minimum buffer (an instance count) is not what
`generateUpToBuffer` guarantees; what holds is coverage of the optimal-buffer
horizon.  After `generateInstancesForOptimalBuffer`, the number of incomplete
instances of the template scheduled strictly in the future is at least the
number of occurrence times of the recurrence chain that are strictly future,
within `now + optimal buffer` days, not beyond the recurrence end date, and
not already taken by a completed instance. -/
theorem c2_amended_buffer_coverage (st : Store) (fuel now : Nat) (parentTask : Task)
    (pattern : RecurrencePattern)
    (hp : parentTask.recurrencePattern = some pattern)
    (hvalid : ∀ t ∈ st, 1 ≤ t.scheduledTime.day)
    (hvt : 1 ≤ parentTask.scheduledTime.day)
    (hf1 : 1 ≤ fuel)
    (hfuel : now + getOptimalBuffer parentTask.recurrencePattern * 1440 + 2 ≤
      (getNextScheduledTime (generationSeed st parentTask) pattern
        (effectiveInterval parentTask.recurrenceInterval)).toAbs + fuel) :
    ∃ stF evsF, generateInstancesForOptimalBuffer st fuel now parentTask = some (stF, evsF) ∧
      ∀ n, (qualifyingOccurrences st now parentTask pattern
          (effectiveInterval parentTask.recurrenceInterval) n).length
        ≤ countUpcomingInstances stF now parentTask.id := by
  have hi := effectiveInterval_pos parentTask.recurrenceInterval
  have hseedday := generationSeed_day hvalid hvt
  have hbufeq : getOptimalBuffer parentTask.recurrencePattern = getOptimalBuffer (some pattern) := by
    rw [hp]
  have hunfold : generateInstancesForOptimalBuffer st fuel now parentTask
      = if pastEnd parentTask now then some (st, [])
        else generateLoop now parentTask pattern
          (effectiveInterval parentTask.recurrenceInterval)
          (now + getOptimalBuffer (some pattern) * 1440) fuel
          (getNextScheduledTime (generationSeed st parentTask) pattern
            (effectiveInterval parentTask.recurrenceInterval)) st [] := by
    unfold generateInstancesForOptimalBuffer
    rw [hp]
    rfl
  by_cases hpn : pastEnd parentTask now = true
  · refine ⟨st, [], ?_, ?_⟩
    · rw [hunfold, if_pos hpn]
    · intro n
      have hempty : qualifyingOccurrences st now parentTask pattern
          (effectiveInterval parentTask.recurrenceInterval) n = [] := by
        unfold qualifyingOccurrences
        rw [List.filter_eq_nil_iff]
        intro a _
        unfold pastEnd at hpn
        rcases hend : parentTask.recurrenceEndDate with _ | e
        · rw [hend] at hpn; cases hpn
        · rw [hend] at hpn
          simp only [decide_eq_true_eq] at hpn
          simp only [hend]
          have hcase : ¬ (now < a) ∨ ¬ (a ≤ e.toAbs) := by omega
          rcases hcase with h1 | h1
          · simp [h1]
          · simp [h1]
      rw [hempty]
      simp
  · have hpn' : pastEnd parentTask now = false := by simpa using hpn
    obtain ⟨stF, evsF, heq, hgrow, hcomp, hcov⟩ :=
      generateLoop_spec now parentTask pattern (effectiveInterval parentTask.recurrenceInterval)
        (now + getOptimalBuffer (some pattern) * 1440) hi fuel
        (getNextScheduledTime (generationSeed st parentTask) pattern
          (effectiveInterval parentTask.recurrenceInterval)) st []
        (getNextScheduledTime_strict _ pattern _ hseedday hi).2 hf1 (by omega)
    refine ⟨stF, evsF, ?_, ?_⟩
    · rw [hunfold, if_neg (by simp [hpn'])]
      exact heq
    · intro n
      apply length_le_of_time_witnesses
      · unfold qualifyingOccurrences
        apply List.Nodup.filter
        apply List.Nodup.map
        · intro k1 k2 hk
          have h2 : k1 + 1 = k2 + 1 :=
            (occurrence_strictMono (generationSeed st parentTask) pattern
              (effectiveInterval parentTask.recurrenceInterval) hseedday hi).injective hk
          omega
        · exact List.nodup_range n
      · intro a ha
        unfold qualifyingOccurrences at ha
        obtain ⟨hamem, hacond⟩ := List.mem_filter.mp ha
        obtain ⟨k, _, hka⟩ := List.mem_map.mp hamem
        simp only [Bool.and_eq_true, decide_eq_true_eq, Bool.not_eq_true] at hacond
        obtain ⟨⟨⟨hnow, hbuf⟩, hend⟩, hnocomp⟩ := hacond
        have hkshift : occurrence (generationSeed st parentTask) pattern
            (effectiveInterval parentTask.recurrenceInterval) (k + 1)
            = occurrence (getNextScheduledTime (generationSeed st parentTask) pattern
              (effectiveInterval parentTask.recurrenceInterval)) pattern
              (effectiveInterval parentTask.recurrenceInterval) k :=
          occurrence_shift _ _ _ k
        have hpek : pastEnd parentTask a = false := by
          unfold pastEnd
          rcases hende : parentTask.recurrenceEndDate with _ | e
          · rfl
          · rw [hende] at hend
            simp only [decide_eq_true_eq] at hend
            simp only [decide_eq_false_iff_not, not_lt]
            exact hend
        obtain ⟨t, htF, htpr, htt⟩ := hcov k (by rw [← hkshift, hka]; omega)
          (by rw [← hkshift, hka]; exact hpek)
        have hteq : t.scheduledTime.toAbs = a := by rw [htt, ← hkshift, hka]
        have htinc : t.completed = false := by
          rcases hcomp t htF with hmem | hcpl
          · by_contra hcontra
            have hcmp : t.completed = true := by
              cases hc : t.completed
              · exact absurd hc hcontra
              · rfl
            have : st.any (fun x => x.parentRecurrencyId == some parentTask.id &&
                x.scheduledTime.toAbs == a && x.completed) = true := by
              rw [List.any_eq_true]
              exact ⟨t, hmem, by simp [htpr, hteq, hcmp]⟩
            rw [this] at hnocomp
            cases hnocomp
          · exact hcpl
        refine ⟨t, ?_, hteq⟩
        show t ∈ stF.filter (fun x => x.parentRecurrencyId == some parentTask.id &&
          !x.completed && decide (now < x.scheduledTime.toAbs))
        rw [List.mem_filter]
        refine ⟨htF, ?_⟩
        simp only [Bool.and_eq_true, beq_iff_eq, Bool.not_eq_true, decide_eq_true_eq]
        exact ⟨⟨htpr, by simp [htinc]⟩, by omega⟩


/-- C2 amended witness: the weekly template of `exC2Store`, generated at its
own scheduled moment, covers both horizon occurrences (+7 and +14 days):
2 qualifying occurrences ≤ 2 future incomplete instances. -/
theorem c2_amended_witness :
    ∃ stF evsF,
      generateInstancesForOptimalBuffer exC2Store 30000 540540 exTemplateWeekly
          = some (stF, evsF) ∧
        (qualifyingOccurrences exC2Store 540540 exTemplateWeekly .weekly 1 5).length
          ≤ countUpcomingInstances stF 540540 1 := by
  obtain ⟨stF, evsF, heq, hcount⟩ := c2_amended_buffer_coverage exC2Store 30000 540540
    exTemplateWeekly .weekly rfl (by decide) (by decide) (by omega) (by decide)
  exact ⟨stF, evsF, heq, hcount 5⟩

end TaskSched
